import Mathlib

/-!
Verification of the graph-construction engine of the llm-codemap repository
(src/analyzer/DependencyExtractor.ts, src/analyzer/types.ts,
src/analyzer/TypeScriptAnalyzer.ts, src/utils/pathUtils.ts).

The TypeScript code is shallowly embedded: the mutable `Map`s of the
`DependencyExtractor` class become association lists threaded through pure
functions (JS `Map` and `Set` preserve insertion order, and every `set` in the
source is guarded by a `has` check, so insert-if-absent-at-end lists are an
exact model); the TypeScript AST walker and the file system are external
collaborators whose outputs (per-file call-expression callee names, the list of
files existing on disk) are taken as input facts.  JS string truthiness
(`""` is falsy, `[]` is truthy) is modelled explicitly at each use site.
-/

namespace Codemap

/-! ## Character-list string helpers

Node runs on POSIX paths inside the VS Code extension host; `path.basename`,
`path.dirname`, `path.isAbsolute` and the JS string methods `endsWith` /
`includes` are modelled over `String.data`.  JS `string.length` counts UTF-16
units; all strings in this development are ASCII, where `List.length ∘
String.data` agrees with it. -/

/-- JS `s.endsWith(suffixStr)`. -/
def strEndsWith (s suffixStr : String) : Bool :=
  suffixStr.data.isSuffixOf s.data

/-- JS `s.includes(sub)`. -/
def strIncludes (s sub : String) : Bool :=
  s.data.tails.any (fun t => sub.data.isPrefixOf t)

/-- JS `s.startsWith(p)`. -/
def strStartsWith (s p : String) : Bool :=
  p.data.isPrefixOf s.data

/-- `path.isAbsolute` on POSIX: the path starts with `/`. -/
def isAbsolutePath (s : String) : Bool :=
  match s.data with
  | '/' :: _ => true
  | _ => false

/-- `path.basename` on POSIX: trailing slashes are ignored, then the part
after the last `/` is returned. -/
def basenameStr (s : String) : String :=
  let rev := s.data.reverse.dropWhile (· == '/')
  String.mk (rev.takeWhile (· != '/')).reverse

/-- `path.dirname` on POSIX. -/
def dirnameStr (s : String) : String :=
  let rev := s.data.reverse.dropWhile (· == '/')
  let rest := (rev.dropWhile (· != '/')).dropWhile (· == '/')
  if rest.isEmpty then (if isAbsolutePath s then "/" else ".") else String.mk rest.reverse

/-- Split a character list at every occurrence of `c`. -/
def splitOnCharAux (c : Char) : List Char → List (List Char)
  | [] => [[]]
  | x :: xs =>
    match splitOnCharAux c xs with
    | [] => [[x]]
    | r :: rs => if x == c then [] :: r :: rs else (x :: r) :: rs

/-- Split a string at every occurrence of the character `c`
(JS `s.split(c)` for a one-character separator). -/
def splitOnChar (c : Char) (s : String) : List String :=
  (splitOnCharAux c s.data).map String.mk

/-- POSIX normalization of an absolute path: `.` and empty segments drop,
`..` pops (models `path.normalize` on the absolute paths produced by
`path.resolve`). -/
def normalizeAbs (s : String) : String :=
  let segs := (splitOnChar '/' s).foldl
    (fun acc seg =>
      if seg == "" || seg == "." then acc
      else if seg == ".." then acc.dropLast
      else acc ++ [seg]) []
  "/" ++ String.intercalate "/" segs

/-- `normalizePath` from src/utils/pathUtils.ts: an absolute path is
normalized as-is, a relative path is resolved against `basePath`
(`path.resolve(basePath, filePath)` with `basePath` absolute). -/
def normalizePath (filePath : String) (basePath : String) : String :=
  if isAbsolutePath filePath then normalizeAbs filePath
  else normalizeAbs (basePath ++ "/" ++ filePath)

/-! ## Data model (src/analyzer/types.ts) -/

/-- `NodeType` enum. -/
inductive NodeType where
  | file
  | function
  | «class»
  | method
  | interface
  | type
  | «variable»
deriving DecidableEq, Repr

/-- `EdgeType` enum. -/
inductive EdgeType where
  | «import»
  | «export»
  | call
  | «extends»
  | implements
  | reference
deriving DecidableEq, Repr

/-- The open metadata bag attached to nodes and edges.  Only the keys the
engine ever writes or reads are modelled; `none` means the key is absent
(JS `undefined`).  `name` is read by the call-edge matcher
(`node.metadata?.name`) but never written by the builder. -/
structure Metadata where
  name : Option String := none
  fullPath : Option String := none
  isExported : Option Bool := none
  isAsync : Option Bool := none
  isPublic : Option Bool := none
  isStatic : Option Bool := none
  parameters : Option (List String) := none
  returnType : Option String := none
  extendsName : Option String := none
  implementsNames : Option (List String) := none
  isDefault : Option Bool := none
  isNamespace : Option Bool := none
  relationship : Option String := none
deriving DecidableEq, Repr

/-- `GraphNode`. -/
structure GraphNode where
  id : String
  label : String
  type : NodeType
  filePath : String
  line : Option Nat := none
  column : Option Nat := none
  parentId : Option String := none
  metadata : Metadata := {}
deriving DecidableEq, Repr

/-- `GraphEdge`. -/
structure GraphEdge where
  id : String
  source : String
  target : String
  type : EdgeType
  label : Option String := none
  metadata : Metadata := {}
deriving DecidableEq, Repr

/-- `GraphData`. -/
structure GraphData where
  nodes : List GraphNode
  edges : List GraphEdge
deriving DecidableEq, Repr

/-- `FunctionInfo`. -/
structure FunctionInfo where
  name : String
  filePath : String
  line : Nat := 0
  column : Nat := 0
  isExported : Bool := false
  isAsync : Bool := false
  parameters : List String := []
  returnType : Option String := none
deriving DecidableEq, Repr

/-- `MethodInfo`. -/
structure MethodInfo where
  name : String
  filePath : String
  line : Nat := 0
  column : Nat := 0
  isPublic : Bool := true
  isStatic : Bool := false
  isAsync : Bool := false
  parameters : List String := []
  returnType : Option String := none
deriving DecidableEq, Repr

/-- `PropertyInfo`. -/
structure PropertyInfo where
  name : String
  filePath : String
  line : Nat := 0
  column : Nat := 0
  type : Option String := none
  isPublic : Bool := true
  isStatic : Bool := false
deriving DecidableEq, Repr

/-- `ClassInfo`. -/
structure ClassInfo where
  name : String
  filePath : String
  line : Nat := 0
  column : Nat := 0
  isExported : Bool := false
  «extends» : Option String := none
  «implements» : List String := []
  methods : List MethodInfo := []
  properties : List PropertyInfo := []
deriving DecidableEq, Repr

/-- `ImportInfo`.  `from` is the string `TypeScriptAnalyzer.extractImportInfo`
stores there: the module specifier after relative-path resolution (that is,
the path of the module being imported *from*, not the importing file). -/
structure ImportInfo where
  «from» : String
  imports : List String
  isDefault : Bool := false
  isNamespace : Bool := false
deriving DecidableEq, Repr

/-- `ExportInfo` (carried through the analysis result; `extractGraphData`
never reads it). -/
structure ExportInfo where
  name : String
  type : String
  filePath : String
  line : Nat := 0
  column : Nat := 0
deriving DecidableEq, Repr

/-- The analysis result handed to `extractGraphData`
(`files` is used only through `file.path`, so it is modelled as the path
list). -/
structure AnalysisResult where
  files : List String
  functions : List FunctionInfo
  classes : List ClassInfo
  imports : List ImportInfo
  exports : List ExportInfo := []
deriving DecidableEq, Repr

/-- The `TypeScriptAnalyzer` as `extractGraphData` consumes it:
`getSourceFile` hands back the parsed file, from which `extractCallEdges`
collects, in AST-visit order, the callee name of each call expression whose
callee is a plain identifier (`f(...)` gives `f`) or a property access with an
identifier member (`obj.m(...)` gives `m`).  The AST walk itself is the
external fact extractor, so a source file is modelled as that list of
resolved callee names. -/
structure Analyzer where
  sources : List (String × List String)
deriving DecidableEq, Repr

/-- `analyzer.getSourceFile(path)` (as the call-fact list, `none` when the
file was not analyzed). -/
def Analyzer.getSourceFile (a : Analyzer) (p : String) : Option (List String) :=
  (a.sources.find? (fun pr => pr.1 == p)).map (·.2)

/-- Hint entry of `relatedFunctions` (`{name, filePath?}`). -/
structure FunctionHint where
  name : String
  filePath : Option String := none
deriving DecidableEq, Repr

/-- Hint entry of `relatedClasses` (`{name, filePath?}`). -/
structure ClassHint where
  name : String
  filePath : Option String := none
deriving DecidableEq, Repr

/-! ## Extractor state (the three private `Map`s of `DependencyExtractor`)

`nodeMap : Map<string, GraphNode>` and `edgeMap : Map<string, GraphEdge>` are
modelled as insertion-ordered lists: every `set(k, v)` in the source is guarded
by `!has(k)` and always has `k = v.id`, so a guarded append is an exact model
of the map including iteration order.  `fileToNodes : Map<string, string[]>`
is an insertion-ordered association list. -/

structure ExtractorState where
  nodeMap : List GraphNode := []
  edgeMap : List GraphEdge := []
  fileToNodes : List (String × List String) := []
deriving DecidableEq, Repr

/-- `this.nodeMap.has(id)`. -/
def nmHas (nm : List GraphNode) (id : String) : Bool :=
  nm.any (fun n => n.id == id)

/-- `this.nodeMap.get(id)`. -/
def nmGet (nm : List GraphNode) (id : String) : Option GraphNode :=
  nm.find? (fun n => n.id == id)

/-- `this.edgeMap.has(id)`. -/
def emHas (em : List GraphEdge) (id : String) : Bool :=
  em.any (fun e => e.id == id)

/-- `this.fileToNodes.has(p)`. -/
def ftnHas (ftn : List (String × List String)) (p : String) : Bool :=
  ftn.any (fun pr => pr.1 == p)

/-- `this.fileToNodes.get(p) || []`. -/
def ftnGet (ftn : List (String × List String)) (p : String) : List String :=
  ((ftn.find? (fun pr => pr.1 == p)).map (·.2)).getD []

/-- The `if (!fileToNodes.has(p)) fileToNodes.set(p, []); fileToNodes.get(p)!.push(id)`
pattern used by every node-creating method. -/
def ftnPush (ftn : List (String × List String)) (p : String) (id : String) :
    List (String × List String) :=
  if ftnHas ftn p then
    ftn.map (fun pr => if pr.1 == p then (pr.1, pr.2 ++ [id]) else pr)
  else ftn ++ [(p, [id])]

/-- Guarded edge insertion: `if (!edgeMap.has(e.id)) edgeMap.set(e.id, e)`. -/
def addEdgeIfAbsent (st : ExtractorState) (e : GraphEdge) : ExtractorState :=
  if emHas st.edgeMap e.id then st else { st with edgeMap := st.edgeMap ++ [e] }

/-! ## Node/Edge Builder (DependencyExtractor private methods) -/

/-- `createFileNode`. -/
def createFileNode (st : ExtractorState) (filePath : String) : ExtractorState :=
  let nodeId := "file:" ++ filePath
  if nmHas st.nodeMap nodeId then st
  else
    let node : GraphNode :=
      { id := nodeId, label := basenameStr filePath, type := NodeType.file,
        filePath := filePath, metadata := { fullPath := some filePath } }
    { st with nodeMap := st.nodeMap ++ [node],
              fileToNodes := ftnPush st.fileToNodes filePath nodeId }

/-- `createFunctionNode`. -/
def createFunctionNode (st : ExtractorState) (func : FunctionInfo) : ExtractorState :=
  let nodeId := "function:" ++ func.filePath ++ ":" ++ func.name
  let fileNodeId := "file:" ++ func.filePath
  if nmHas st.nodeMap nodeId then st
  else
    let node : GraphNode :=
      { id := nodeId, label := func.name, type := NodeType.function,
        filePath := func.filePath, line := some func.line, column := some func.column,
        parentId := some fileNodeId,
        metadata := { isExported := some func.isExported, isAsync := some func.isAsync,
                      parameters := some func.parameters, returnType := func.returnType } }
    { st with nodeMap := st.nodeMap ++ [node],
              fileToNodes := ftnPush st.fileToNodes func.filePath nodeId }

/-- `createClassNode`. -/
def createClassNode (st : ExtractorState) (cls : ClassInfo) : ExtractorState :=
  let nodeId := "class:" ++ cls.filePath ++ ":" ++ cls.name
  let fileNodeId := "file:" ++ cls.filePath
  if nmHas st.nodeMap nodeId then st
  else
    let node : GraphNode :=
      { id := nodeId, label := cls.name, type := NodeType.«class»,
        filePath := cls.filePath, line := some cls.line, column := some cls.column,
        parentId := some fileNodeId,
        metadata := { isExported := some cls.isExported, extendsName := cls.«extends»,
                      implementsNames := some cls.«implements» } }
    { st with nodeMap := st.nodeMap ++ [node],
              fileToNodes := ftnPush st.fileToNodes cls.filePath nodeId }

/-- `createMethodNode` (note: method nodes are not registered in
`fileToNodes`). -/
def createMethodNode (st : ExtractorState) (method : MethodInfo) (cls : ClassInfo) :
    ExtractorState :=
  let nodeId := "method:" ++ method.filePath ++ ":" ++ cls.name ++ "." ++ method.name
  let classNodeId := "class:" ++ method.filePath ++ ":" ++ cls.name
  if nmHas st.nodeMap nodeId then st
  else
    let node : GraphNode :=
      { id := nodeId, label := cls.name ++ "." ++ method.name, type := NodeType.method,
        filePath := method.filePath, line := some method.line, column := some method.column,
        parentId := some classNodeId,
        metadata := { isPublic := some method.isPublic, isStatic := some method.isStatic,
                      isAsync := some method.isAsync, parameters := some method.parameters,
                      returnType := method.returnType } }
    { st with nodeMap := st.nodeMap ++ [node] }

/-- `findFileByExport`: the first node in `nodeMap` order that is a file node
labeled `exportName`, or any function/class node labeled `exportName`, gives
its `filePath`. -/
def findFileByExport (nm : List GraphNode) (exportName : String) : Option String :=
  (nm.find? (fun node =>
    (node.type == NodeType.file && node.label == exportName) ||
    (node.label == exportName &&
      (node.type == NodeType.function || node.type == NodeType.«class»)))).map (·.filePath)

/-- `findNodeByName`. -/
def findNodeByName (nm : List GraphNode) (name : String) (t : NodeType) : Option String :=
  (nm.find? (fun node => node.label == name && node.type == t)).map (·.id)

/-- One inner step of `createImportEdges`: the node-level import edge for a
`(sourceNodeId, targetNodeId)` pair whose target node carries the imported
name as label. -/
def importNodeEdge (importInfo : ImportInfo) (importName : String) (sourceNodeId : String)
    (st : ExtractorState) (targetNodeId : String) : ExtractorState :=
  match nmGet st.nodeMap targetNodeId with
  | some targetNode =>
    if targetNode.label == importName then
      addEdgeIfAbsent st
        { id := "import:" ++ sourceNodeId ++ ":" ++ targetNodeId,
          source := sourceNodeId, target := targetNodeId,
          type := EdgeType.«import», label := some importName,
          metadata := { isDefault := some importInfo.isDefault,
                        isNamespace := some importInfo.isNamespace } }
    else st
  | none => st

/-- The `if (!fileToNodes.has(targetFile)) createFileNode(targetFile)` step
of `createImportEdges`. -/
def ensureFileEntry (st : ExtractorState) (targetFile : String) : ExtractorState :=
  if ftnHas st.fileToNodes targetFile then st else createFileNode st targetFile

/-- The file-level import edge of `createImportEdges`, guarded by the
existence of both file nodes. -/
def importFileEdge (importInfo : ImportInfo) (importName sourceFileNodeId : String)
    (targetFile : String) (st : ExtractorState) : ExtractorState :=
  if nmHas st.nodeMap sourceFileNodeId && nmHas st.nodeMap ("file:" ++ targetFile) then
    addEdgeIfAbsent st
      { id := "import:" ++ sourceFileNodeId ++ ":" ++ ("file:" ++ targetFile),
        source := sourceFileNodeId, target := "file:" ++ targetFile,
        type := EdgeType.«import», label := some importName,
        metadata := { isDefault := some importInfo.isDefault,
                      isNamespace := some importInfo.isNamespace } }
  else st

/-- The body of the `for (const importName of importInfo.imports)` loop of
`createImportEdges` (`sourceFileNodeId = sourceFileNodes[0]`,
`targetFileNodeId = "file:" + targetFile`). -/
def importNameStep (importInfo : ImportInfo) (sourceFileNodes : List String)
    (st : ExtractorState) (importName : String) : ExtractorState :=
  match findFileByExport st.nodeMap importName with
  | some targetFile =>
    let st := ensureFileEntry st targetFile
    let targetNodes := ftnGet st.fileToNodes targetFile
    let st := importFileEdge importInfo importName (sourceFileNodes.headD "") targetFile st
    sourceFileNodes.foldl (fun st sourceNodeId =>
      targetNodes.foldl (importNodeEdge importInfo importName sourceNodeId) st) st
  | none => st

/-- The preamble of `createImportEdges`: when the importing-file entry of
`fileToNodes` is empty and no file node exists for it yet, create one. -/
def importSourceState (st0 : ExtractorState) (importInfo : ImportInfo) : ExtractorState :=
  if (ftnGet st0.fileToNodes importInfo.«from»).isEmpty then
    if nmHas st0.nodeMap ("file:" ++ importInfo.«from») then st0
    else createFileNode st0 importInfo.«from»
  else st0

/-- `createImportEdges`.  `sourceFileNodes` is snapshotted before the name
loop exactly as the `const` in the source (creations inside the loop only ever
add entries for file paths not yet present, so the snapshot stays valid). -/
def createImportEdges (st0 : ExtractorState) (importInfo : ImportInfo) : ExtractorState :=
  let st := importSourceState st0 importInfo
  let sourceFileNodes := ftnGet st.fileToNodes importInfo.«from»
  if sourceFileNodes.isEmpty then st
  else importInfo.imports.foldl (importNameStep importInfo sourceFileNodes) st

/-- `findCallerNode`: the first node of `fileToNodes[callNode.filePath]` whose
node is a function node. -/
def findCallerNode (st : ExtractorState) (callNode : GraphNode) : Option String :=
  (ftnGet st.fileToNodes callNode.filePath).findSome? (fun nodeId =>
    match nmGet st.nodeMap nodeId with
    | some node => if node.type == NodeType.function then some nodeId else none
    | none => none)

/-- The per-candidate-node step of `extractCallEdges`: when the node carries
the callee name, add a call edge from the file's first function node. -/
def addCallEdgeFor (functionName : String) (st : ExtractorState) (nodeId : String) :
    ExtractorState :=
  match nmGet st.nodeMap nodeId with
  | some node =>
    if node.label == functionName || node.metadata.name == some functionName then
      match findCallerNode st node with
      | some callerNodeId =>
        addEdgeIfAbsent st
          { id := "call:" ++ callerNodeId ++ ":" ++ nodeId,
            source := callerNodeId, target := nodeId,
            type := EdgeType.call, label := some "calls" }
      | none => st
    else st
  | none => st

/-- The per-call-expression step of `extractCallEdges`. -/
def callEdgesForName (filePath : String) (st : ExtractorState) (functionName : String) :
    ExtractorState :=
  (ftnGet st.fileToNodes filePath).foldl (addCallEdgeFor functionName) st

/-- `extractCallEdges` for one file: `callNames` is the list of resolved
callee names the AST visit yields (see `Analyzer`). -/
def extractCallEdges (st0 : ExtractorState) (filePath : String) (callNames : List String) :
    ExtractorState :=
  callNames.foldl (callEdgesForName filePath) st0

/-- The per-interface step of `createInheritanceEdges`. -/
def implementsEdgeFor (classNodeId : String) (st : ExtractorState)
    (interfaceName : String) : ExtractorState :=
  match findNodeByName st.nodeMap interfaceName NodeType.interface with
  | some implementsNodeId =>
    addEdgeIfAbsent st
      { id := "implements:" ++ classNodeId ++ ":" ++ implementsNodeId,
        source := classNodeId, target := implementsNodeId,
        type := EdgeType.implements, label := some "implements" }
  | none => st

/-- `createInheritanceEdges` (the `if (cls.extends)` test is JS truthiness:
the empty string is skipped). -/
def createInheritanceEdges (st0 : ExtractorState) (cls : ClassInfo) : ExtractorState :=
  let classNodeId := "class:" ++ cls.filePath ++ ":" ++ cls.name
  let st :=
    match cls.«extends» with
    | some ext =>
      if ext == "" then st0
      else
        match findNodeByName st0.nodeMap ext NodeType.«class» with
        | some extendsNodeId =>
          addEdgeIfAbsent st0
            { id := "extends:" ++ classNodeId ++ ":" ++ extendsNodeId,
              source := classNodeId, target := extendsNodeId,
              type := EdgeType.«extends», label := some "extends" }
        | none => st0
    | none => st0
  cls.«implements».foldl (implementsEdgeFor classNodeId) st

/-- The per-node step of `createParentChildEdges`. -/
def parentChildStep (st : ExtractorState) (node : GraphNode) : ExtractorState :=
  match node.parentId with
  | some pid =>
    if pid == "" then st
    else if nmHas st.nodeMap pid then
      addEdgeIfAbsent st
        { id := "parent:" ++ pid ++ ":" ++ node.id,
          source := pid, target := node.id,
          type := EdgeType.reference, label := some "contains",
          metadata := { relationship := some "parent-child" } }
    else st
  | none => st

/-- `createParentChildEdges` (the `if (node.parentId)` test is JS truthiness:
an empty parent id is skipped; an unresolvable parent is skipped and only
counted). -/
def createParentChildEdges (st0 : ExtractorState) : ExtractorState :=
  st0.nodeMap.foldl parentChildStep st0

/-- The `this.nodeMap.clear(); this.edgeMap.clear(); this.fileToNodes.clear()`
prologue of `extractGraphData`. -/
def clearState (_self : ExtractorState) : ExtractorState :=
  { nodeMap := [], edgeMap := [], fileToNodes := [] }

/-- Step 4 of `extractGraphData` for one class: a method node per method. -/
def createMethodNodes (st : ExtractorState) (cls : ClassInfo) : ExtractorState :=
  cls.methods.foldl (fun st m => createMethodNode st m cls) st

/-- Steps 1–4 of `extractGraphData`: file nodes, function nodes, class nodes,
method nodes, in that order. -/
def buildNodesPhase (st : ExtractorState) (r : AnalysisResult) : ExtractorState :=
  let st := r.files.foldl createFileNode st
  let st := r.functions.foldl createFunctionNode st
  let st := r.classes.foldl createClassNode st
  r.classes.foldl createMethodNodes st

/-- Step 5: import/export edges. -/
def importPhase (st : ExtractorState) (r : AnalysisResult) : ExtractorState :=
  r.imports.foldl createImportEdges st

/-- Step 6 of `extractGraphData` for one file: call edges when the analyzer
holds a parsed source for it. -/
def callFileStep (analyzer : Analyzer) (st : ExtractorState) (p : String) :
    ExtractorState :=
  match analyzer.getSourceFile p with
  | some callNames => extractCallEdges st p callNames
  | none => st

/-- Step 6: call edges, per analyzed file. -/
def callPhase (st : ExtractorState) (analyzer : Analyzer) (r : AnalysisResult) :
    ExtractorState :=
  r.files.foldl (callFileStep analyzer) st

/-- Step 7: inheritance edges. -/
def inheritPhase (st : ExtractorState) (r : AnalysisResult) : ExtractorState :=
  r.classes.foldl createInheritanceEdges st

/-- The state after steps 1–5 of a build pass (used to phrase hypotheses about
the call-edge step, which reads but never writes the node and file maps). -/
def stAfterImports (r : AnalysisResult) : ExtractorState :=
  importPhase (buildNodesPhase {} r) r

/-- Steps 1–8 of `extractGraphData` (the full build pass, before any
filtering), starting from the instance state `self`, which is cleared
first. -/
def buildStateFrom (self : ExtractorState) (analyzer : Analyzer) (r : AnalysisResult) :
    ExtractorState :=
  createParentChildEdges
    (inheritPhase (callPhase (importPhase (buildNodesPhase (clearState self) r) r) analyzer r) r)

/-- The graph a full build pass produces before the LLM-context filter. -/
def buildGraph (analyzer : Analyzer) (r : AnalysisResult) : GraphData :=
  let st := buildStateFrom {} analyzer r
  { nodes := st.nodeMap, edges := st.edgeMap }

/-! ## Context Filter (filterGraphByLLMContext and helpers) -/

/-- JS `Set.add` on an insertion-ordered set. -/
def setAdd (s : List String) (x : String) : List String :=
  if s.contains x then s else s ++ [x]

/-- Stable insert by path length (ascending). -/
def insertByLen (x : String) : List String → List String
  | [] => [x]
  | y :: ys =>
    if x.data.length ≤ y.data.length then x :: y :: ys else y :: insertByLen x ys

/-- `matchingFiles.sort((a, b) => a.path.length - b.path.length)`: JS `sort`
is a stable sort by the key `path.length`; a stable sort's output is uniquely
determined by the key order, so this insertion sort is an exact model. -/
def sortByLen : List String → List String
  | [] => []
  | x :: xs => insertByLen x (sortByLen xs)

/-- `findTargetFilePath` over the known file paths:  absolute hints match
exactly; otherwise files matching by basename **or** by `endsWith(targetFile)`
are collected; a sole match wins, several matches are sorted by path length
(JS sort is stable) and the first is taken, and with no match the first file
whose path ends with or contains the hint is returned. -/
def findTargetFilePath (targetFile : String) (files : List String) : Option String :=
  if isAbsolutePath targetFile then files.find? (fun f => f == targetFile)
  else
    let fileName := basenameStr targetFile
    let matchingFiles := files.filter (fun f =>
      basenameStr f == fileName || strEndsWith f targetFile)
    if matchingFiles.length == 1 then matchingFiles.head?
    else if matchingFiles.length > 1 then (sortByLen matchingFiles).head?
    else
      files.find? (fun f => strEndsWith f targetFile || strIncludes f targetFile)

/-- Step 4 of the filter, one `relatedFunctions` hint
(`if (func.filePath)` is JS truthiness: an empty string falls to the
name-search branch). -/
def seedFunctionByName (r : AnalysisResult) (rel : List String) (name : String) :
    List String :=
  r.functions.foldl (fun rel af =>
    if af.name == name then
      setAdd (setAdd rel ("function:" ++ af.filePath ++ ":" ++ af.name))
        ("file:" ++ af.filePath)
    else rel) rel

/-- One `relatedFunctions` hint. -/
def seedFunctionHint (g : GraphData) (r : AnalysisResult) (rel : List String)
    (func : FunctionHint) : List String :=
  match func.filePath with
  | some fp =>
    if fp == "" then seedFunctionByName r rel func.name
    else
      match findTargetFilePath fp r.files with
      | some filePath =>
        let funcNodeId := "function:" ++ filePath ++ ":" ++ func.name
        let fileNodeId := "file:" ++ filePath
        if (g.nodes.find? (fun n => n.id == funcNodeId)).isSome then
          setAdd (setAdd rel funcNodeId) fileNodeId
        else rel
      | none => rel
  | none => seedFunctionByName r rel func.name

/-- Step 5 of the filter, name-search branch of a `relatedClasses` hint. -/
def seedClassByName (r : AnalysisResult) (rel : List String) (name : String) :
    List String :=
  r.classes.foldl (fun rel ac =>
    if ac.name == name then
      let rel := setAdd rel ("class:" ++ ac.filePath ++ ":" ++ ac.name)
      let rel := setAdd rel ("file:" ++ ac.filePath)
      ac.methods.foldl (fun rel m =>
        setAdd rel ("method:" ++ m.filePath ++ ":" ++ name ++ "." ++ m.name)) rel
    else rel) rel

/-- One `relatedClasses` hint. -/
def seedClassHint (g : GraphData) (r : AnalysisResult) (rel : List String)
    (cls : ClassHint) : List String :=
  match cls.filePath with
  | some fp =>
    if fp == "" then seedClassByName r rel cls.name
    else
      match findTargetFilePath fp r.files with
      | some filePath =>
        let classNodeId := "class:" ++ filePath ++ ":" ++ cls.name
        if g.nodes.any (fun n => n.id == classNodeId) then
          let rel := setAdd rel classNodeId
          let rel := setAdd rel ("file:" ++ filePath)
          r.classes.foldl (fun rel ac =>
            if ac.filePath == filePath && ac.name == cls.name then
              ac.methods.foldl (fun rel m =>
                setAdd rel ("method:" ++ m.filePath ++ ":" ++ cls.name ++ "." ++ m.name)) rel
            else rel) rel
        else rel
      | none => rel
  | none => seedClassByName r rel cls.name

/-- The per-edge body of the breadth-first walk: edges are followed in both
directions; a newly reached endpoint is queued and added to the related set,
and the file node id of its (found) node is queued too. -/
def bfsVisitEdge (g : GraphData) (current : String) (processed : List String)
    (acc : List String × List String) (edge : GraphEdge) : List String × List String :=
  let acc :=
    if edge.source == current then
      if processed.contains edge.target then acc
      else
        let tp := setAdd acc.1 edge.target
        let rel := setAdd acc.2 edge.target
        match g.nodes.find? (fun n => n.id == edge.target) with
        | some targetNode =>
          let tfid := "file:" ++ targetNode.filePath
          (if processed.contains tfid then tp else setAdd tp tfid, rel)
        | none => (tp, rel)
    else acc
  if edge.target == current then
    if processed.contains edge.source then acc
    else
      let tp := setAdd acc.1 edge.source
      let rel := setAdd acc.2 edge.source
      match g.nodes.find? (fun n => n.id == edge.source) with
      | some sourceNode =>
        let sfid := "file:" ++ sourceNode.filePath
        (if processed.contains sfid then tp else setAdd tp sfid, rel)
      | none => (tp, rel)
  else acc

/-- Processing one dequeued node: scan all edges, then queue the node's
`parentId` (JS truthiness: an empty parent id is skipped). -/
def bfsProcess (g : GraphData) (current : String) (processed : List String)
    (tp rel : List String) : List String × List String :=
  let acc := g.edges.foldl (bfsVisitEdge g current processed) (tp, rel)
  let tp' :=
    match g.nodes.find? (fun n => n.id == current) with
    | some currentNode =>
      match currentNode.parentId with
      | some pid =>
        if pid != "" && !(processed.contains pid) then setAdd acc.1 pid else acc.1
      | none => acc.1
    | none => acc.1
  (tp', acc.2)

/-- The `while (nodesToProcess.size > 0)` loop, fuel-indexed.
`Array.from(set)[0]` followed by `delete` dequeues the insertion-order head. -/
def bfsAux (g : GraphData) : Nat → List String → List String → List String → List String
  | 0, _, _, rel => rel
  | _ + 1, [], _, rel => rel
  | fuel + 1, current :: rest, processed, rel =>
    if processed.contains current then bfsAux g fuel rest processed rel
    else
      let processed' := processed ++ [current]
      let rel' := setAdd rel current
      let acc := bfsProcess g current processed' rest rel'
      bfsAux g fuel acc.1 processed' acc.2

/-- Every id the walk can ever enqueue. -/
def bfsUniverse (g : GraphData) (seeds : List String) : List String :=
  (seeds ++ g.edges.map (·.source) ++ g.edges.map (·.target) ++
    g.nodes.map (fun n => "file:" ++ n.filePath) ++
    g.nodes.filterMap (·.parentId)).dedup

/-- Fuel that provably outlasts the walk (see `bfsAux_post`). -/
def bfsFuel (g : GraphData) (seeds : List String) : Nat :=
  ((bfsUniverse g seeds).length + 1) * ((bfsUniverse g seeds).length + 1)

/-- The breadth-first expansion of the seed set
(`nodesToProcess = new Set(relatedNodeIds)`, `processedNodes = new Set()`). -/
def bfsExpand (g : GraphData) (seeds : List String) : List String :=
  bfsAux g (bfsFuel g seeds) seeds [] seeds

/-- The closure pass after the walk: for every file node in the (snapshotted)
related set, every node sharing its file path is added. -/
def fileClosurePass (g : GraphData) (rel : List String) : List String :=
  rel.foldl (fun acc nodeId =>
    match g.nodes.find? (fun n => n.id == nodeId) with
    | some node =>
      if node.type == NodeType.file then
        g.nodes.foldl (fun acc childNode =>
          if childNode.filePath == node.filePath && childNode.id != nodeId then
            setAdd acc childNode.id
          else acc) acc
      else acc
    | none => acc) rel

/-- Steps 1–5 of `filterGraphByLLMContext`: the seed set (`relatedNodeIds`
before the breadth-first walk). -/
def collectSeeds (g : GraphData) (r : AnalysisResult)
    (targetFile : Option String) (relatedFiles : Option (List String))
    (relatedFunctions : Option (List FunctionHint))
    (relatedClasses : Option (List ClassHint))
    (focusNodes : Option (List String)) : List String :=
  let rel : List String := []
  let rel : List String :=
    match focusNodes with
    | some l =>
      if l.length > 0 then
        l.foldl (fun rel nodeId =>
          if g.nodes.any (fun n => n.id == nodeId) then setAdd rel nodeId else rel) rel
      else rel
    | none => rel
  let rel : List String :=
    match targetFile with
    | some t =>
      if t == "" then rel
      else
        match findTargetFilePath t r.files with
        | some targetFilePath => setAdd rel ("file:" ++ targetFilePath)
        | none => rel
    | none => rel
  let rel : List String :=
    match relatedFiles with
    | some l =>
      if l.length > 0 then
        l.foldl (fun rel file =>
          match findTargetFilePath file r.files with
          | some filePath =>
            let rel := setAdd rel ("file:" ++ filePath)
            g.nodes.foldl (fun rel node =>
              if node.filePath == filePath then setAdd rel node.id else rel) rel
          | none => rel) rel
      else rel
    | none => rel
  let rel : List String :=
    match relatedFunctions with
    | some l => if l.length > 0 then l.foldl (seedFunctionHint g r) rel else rel
    | none => rel
  match relatedClasses with
  | some l => if l.length > 0 then l.foldl (seedClassHint g r) rel else rel
  | none => rel

/-- The final `relatedNodeIds` set: when any seed exists, the breadth-first
expansion followed by the file-closure pass; otherwise the empty seed set. -/
def finalRelated (g : GraphData) (r : AnalysisResult)
    (targetFile : Option String) (relatedFiles : Option (List String))
    (relatedFunctions : Option (List FunctionHint))
    (relatedClasses : Option (List ClassHint))
    (focusNodes : Option (List String)) : List String :=
  let rel := collectSeeds g r targetFile relatedFiles relatedFunctions relatedClasses focusNodes
  if rel.length > 0 then fileClosurePass g (bfsExpand g rel) else rel

/-- Step 7 of `filterGraphByLLMContext`: keep the nodes whose id is related
and the edges whose both endpoints are related. -/
def applyRelFilter (g : GraphData) (rel : List String) : GraphData :=
  { nodes := g.nodes.filter (fun n => rel.contains n.id),
    edges := g.edges.filter (fun e => rel.contains e.source && rel.contains e.target) }

/-- `filterGraphByLLMContext`. -/
def filterGraphByLLMContext (g : GraphData) (r : AnalysisResult)
    (targetFile : Option String) (relatedFiles : Option (List String))
    (relatedFunctions : Option (List FunctionHint))
    (relatedClasses : Option (List ClassHint))
    (focusNodes : Option (List String)) : GraphData :=
  applyRelFilter g
    (finalRelated g r targetFile relatedFiles relatedFunctions relatedClasses focusNodes)

/-- JS truthiness of the optional `targetFile` string argument. -/
def truthyStr : Option String → Bool
  | some s => s != ""
  | none => false

/-- The `if (targetFile || relatedFiles || relatedFunctions || relatedClasses
|| focusNodes)` guard: array arguments are truthy whenever supplied, even
empty; the string argument is truthy when supplied and nonempty. -/
def hintGiven (targetFile : Option String) (relatedFiles : Option (List String))
    (relatedFunctions : Option (List FunctionHint))
    (relatedClasses : Option (List ClassHint))
    (focusNodes : Option (List String)) : Bool :=
  truthyStr targetFile || relatedFiles.isSome || relatedFunctions.isSome ||
    relatedClasses.isSome || focusNodes.isSome

/-- `extractGraphData`: clear the instance maps, run the build pass, then
filter when any hint argument was passed. -/
def extractGraphData (self : ExtractorState) (analyzer : Analyzer) (r : AnalysisResult)
    (targetFile : Option String) (relatedFiles : Option (List String))
    (relatedFunctions : Option (List FunctionHint))
    (relatedClasses : Option (List ClassHint))
    (focusNodes : Option (List String)) : GraphData :=
  let st := buildStateFrom self analyzer r
  let result : GraphData := { nodes := st.nodeMap, edges := st.edgeMap }
  if hintGiven targetFile relatedFiles relatedFunctions relatedClasses focusNodes then
    filterGraphByLLMContext result r targetFile relatedFiles relatedFunctions
      relatedClasses focusNodes
  else result

/-! ## Direct graph ingestion (createGraphFromLLMSpec) -/

/-- Caller-supplied node record. -/
structure LLMNodeSpec where
  id : String
  label : String
  type : String
  filePath : Option String := none
  line : Option Nat := none
  column : Option Nat := none
deriving DecidableEq, Repr

/-- Caller-supplied edge record. -/
structure LLMEdgeSpec where
  source : String
  target : String
  type : String
  label : Option String := none
deriving DecidableEq, Repr

/-- The node-kind tag switch with its `default: NodeType.File`. -/
def parseNodeTypeTag (t : String) : NodeType :=
  if t == "file" then NodeType.file
  else if t == "function" then NodeType.function
  else if t == "class" then NodeType.«class»
  else if t == "method" then NodeType.method
  else if t == "interface" then NodeType.interface
  else if t == "type" then NodeType.type
  else if t == "variable" then NodeType.«variable»
  else NodeType.file

/-- The edge-type tag switch with its `default: EdgeType.Reference`. -/
def parseEdgeTypeTag (t : String) : EdgeType :=
  if t == "import" then EdgeType.«import»
  else if t == "export" then EdgeType.«export»
  else if t == "call" then EdgeType.call
  else if t == "extends" then EdgeType.«extends»
  else if t == "implements" then EdgeType.implements
  else if t == "reference" then EdgeType.reference
  else EdgeType.reference

/-- `n.id.replace(/^(file|function|class|method):/, '')`. -/
def stripKindPrefix (id : String) : String :=
  match ["file", "function", "class", "method"].find?
      (fun k => strStartsWith id (k ++ ":")) with
  | some k => String.mk (id.data.drop (k.data.length + 1))
  | none => id

/-- `n.filePath || n.id.replace(/^(file|function|class|method):/, '').split(':')[0] || ''`
(JS truthiness on both `||`s). -/
def llmSpecFilePath (n : LLMNodeSpec) : String :=
  let derived := ((splitOnChar ':' (stripKindPrefix n.id)).headD "")
  match n.filePath with
  | some fp => if fp == "" then derived else fp
  | none => derived

/-- Number of edge endpoints that are missing from the supplied node list
(each one makes `createGraphFromLLMSpec` emit a console diagnostic). -/
def llmSpecMissingEndpointCount (nodes : List LLMNodeSpec) (edges : List LLMEdgeSpec) : Nat :=
  edges.foldl (fun acc e =>
    let acc := if nodes.any (fun n => n.id == e.source) then acc else acc + 1
    if nodes.any (fun n => n.id == e.target) then acc else acc + 1) 0

/-- `createGraphFromLLMSpec`: a trusted passthrough; the endpoint-existence
check only logs, it never drops or rewrites an edge. -/
def createGraphFromLLMSpec (nodes : List LLMNodeSpec) (edges : List LLMEdgeSpec) :
    GraphData :=
  let graphNodes : List GraphNode := nodes.map (fun n =>
    { id := n.id, label := n.label, type := parseNodeTypeTag n.type,
      filePath := llmSpecFilePath n, line := n.line, column := n.column,
      metadata := {} })
  let graphEdges : List GraphEdge := edges.enum.map (fun pr =>
    { id := "edge-" ++ toString pr.1, source := pr.2.source, target := pr.2.target,
      type := parseEdgeTypeTag pr.2.type,
      label := some (match pr.2.label with
        | some l => if l == "" then "contains" else l
        | none => "contains"),
      metadata := {} })
  { nodes := graphNodes, edges := graphEdges }

/-! ## Import-specifier resolution (TypeScriptAnalyzer.extractImportInfo,
lines 786–801)

The name-collection half of `extractImportInfo` walks the AST (external fact
extractor); the resolution half below is the code that turns the module
specifier into the `from` field.  `fs.existsSync` is modelled as membership in
the list of files that exist. -/

/-- The relative-specifier resolution of `extractImportInfo`: resolve against
the importing file's directory, then probe the bare path and each suffix in
order. -/
def resolveImportPath (filesOnDisk : List String) (filePath : String)
    (specifier : String) : String :=
  if strStartsWith specifier "." then
    let baseDir := dirnameStr filePath
    let resolvedPath := normalizePath specifier baseDir
    if filesOnDisk.contains resolvedPath then resolvedPath
    else
      match [".ts", ".tsx", ".js", ".jsx", "/index.ts", "/index.js"].find?
          (fun ext => filesOnDisk.contains (resolvedPath ++ ext)) with
      | some ext => resolvedPath ++ ext
      | none => resolvedPath
  else specifier

/-- The `ImportInfo` record `extractImportInfo` returns for an import
declaration in `filePath` with the given specifier and collected names. -/
def extractImportInfoFact (filesOnDisk : List String) (filePath : String)
    (specifier : String) (imports : List String) (isDefault isNamespace : Bool) :
    ImportInfo :=
  { «from» := resolveImportPath filesOnDisk filePath specifier,
    imports := imports, isDefault := isDefault, isNamespace := isNamespace }

/-! ## Reference formulation of the path-resolution rule

`findTargetFilePathRef` restates the resolution rule in the amended spec
wording: absolute hints match exactly; the candidate set is every file whose
basename equals the hint's basename **or** whose path ends with the hint; a
sole candidate is taken; among several the earliest of minimal path length is
taken; with none, the first file whose path ends with or contains the hint is
taken. -/

/-- The earliest path of minimal length. -/
def firstShortest : List String → String
  | [] => ""
  | [x] => x
  | x :: y :: ys =>
    let m := firstShortest (y :: ys)
    if x.data.length ≤ m.data.length then x else m

/-- The amended File Path Resolution Rule, written from its own wording. -/
def findTargetFilePathRef (targetFile : String) (files : List String) : Option String :=
  if isAbsolutePath targetFile then files.find? (fun f => f == targetFile)
  else
    let candidate : String → Bool := fun f =>
      basenameStr f == basenameStr targetFile || strEndsWith f targetFile
    match files.filter candidate with
    | [] => files.find? (fun f => strEndsWith f targetFile || strIncludes f targetFile)
    | [onlyMatch] => some onlyMatch
    | c₁ :: c₂ :: cs => some (firstShortest (c₁ :: c₂ :: cs))

/-! ## Invariant predicates over builder states -/

/-- The string has no `:`. -/
def colonFree (s : String) : Prop := ':' ∉ s.data

instance (s : String) : Decidable (colonFree s) := by
  unfold colonFree; infer_instance

/-- Well-formed node-id shape: a recognized kind tag, then a `:`-free path
(file ids) or a path and a qualified name, both `:`-free (other ids).  Every
id the builder mints from `:`-free facts has this shape, which makes the id
encoding injective. -/
def IdOk (s : String) : Prop :=
  ∃ kind rest, (kind = "file" ∨ kind = "function" ∨ kind = "class" ∨ kind = "method") ∧
    s = kind ++ ":" ++ rest ∧
    (kind = "file" → colonFree rest) ∧
    (kind ≠ "file" → ∃ p q, rest = p ++ ":" ++ q ∧ colonFree p ∧ colonFree q)

/-- The id prefix each edge-creation site writes for its edge type. -/
def edgeTypePrefix : EdgeType → String
  | EdgeType.«import» => "import:"
  | EdgeType.«export» => "export:"
  | EdgeType.call => "call:"
  | EdgeType.«extends» => "extends:"
  | EdgeType.implements => "implements:"
  | EdgeType.reference => "parent:"

/-- Per-edge builder invariant: the id records type, source and target; both
endpoints exist as nodes; call edges join two nodes of one file; reference
edges are the containment edges, created from a node that names its source as
parent. -/
def EdgeInv (nm : List GraphNode) (e : GraphEdge) : Prop :=
  e.id = edgeTypePrefix e.type ++ e.source ++ ":" ++ e.target ∧
  (∃ n ∈ nm, n.id = e.source) ∧ (∃ n ∈ nm, n.id = e.target) ∧
  (e.type = EdgeType.call → e.label = some "calls" ∧
    ∃ n₁ ∈ nm, ∃ n₂ ∈ nm, n₁.id = e.source ∧ n₂.id = e.target ∧ n₁.filePath = n₂.filePath) ∧
  (e.type = EdgeType.reference →
    e.label = some "contains" ∧ ∃ n ∈ nm, n.id = e.target ∧ n.parentId = some e.source)

/-- Builder-state invariant that holds for every reachable state of a build
pass, with no assumption on the facts. -/
structure StInv (st : ExtractorState) : Prop where
  nodeNodup : (st.nodeMap.map GraphNode.id).Nodup
  edgeNodup : (st.edgeMap.map GraphEdge.id).Nodup
  ftnOk : ∀ pr ∈ st.fileToNodes, ∀ id ∈ pr.2,
    ∃ n ∈ st.nodeMap, n.id = id ∧ n.filePath = pr.1
  edgeOk : ∀ e ∈ st.edgeMap, EdgeInv st.nodeMap e

/-- Additional per-node invariant available when the facts are `:`-free:
well-shaped ids everywhere. -/
def IdsOk (st : ExtractorState) : Prop :=
  ∀ n ∈ st.nodeMap, IdOk n.id ∧ colonFree n.filePath ∧
    ∀ pid, n.parentId = some pid → IdOk pid

/-- The facts contain no `:` in any path or name (every fact the TypeScript
analyzer extracts is of this shape: names are identifiers and paths are file
paths). -/
def ColonFreeFacts (r : AnalysisResult) : Prop :=
  (∀ p ∈ r.files, colonFree p) ∧
  (∀ f ∈ r.functions, colonFree f.name ∧ colonFree f.filePath) ∧
  (∀ c ∈ r.classes, colonFree c.name ∧ colonFree c.filePath ∧
    ∀ m ∈ c.methods, colonFree m.name ∧ colonFree m.filePath) ∧
  (∀ i ∈ r.imports, colonFree i.«from»)

instance (r : AnalysisResult) : Decidable (ColonFreeFacts r) := by
  unfold ColonFreeFacts; infer_instance

/-- Facts as the analyzer produces them: `:`-free, every declaration's file
is in the file list, and each method record carries its class's file. -/
def WFFacts (r : AnalysisResult) : Prop :=
  ColonFreeFacts r ∧
  (∀ f ∈ r.functions, f.filePath ∈ r.files) ∧
  (∀ c ∈ r.classes, c.filePath ∈ r.files ∧ ∀ m ∈ c.methods, m.filePath = c.filePath)

instance (r : AnalysisResult) : Decidable (WFFacts r) := by
  unfold WFFacts; infer_instance

/-- Node shape invariant under `:`-free facts: every node is a file node
(`file:<path>`, no parent), a function/class node (parent is its file node,
which exists whenever the declaration's file was in the file list), or a
method node (parent is its class node). -/
def NodeShape (nm : List GraphNode) (n : GraphNode) : Prop :=
  (n.id = "file:" ++ n.filePath ∧ n.type = NodeType.file ∧ n.parentId = none) ∨
  (∃ name, n.id = "function:" ++ n.filePath ++ ":" ++ name ∧
    n.type = NodeType.function ∧ n.parentId = some ("file:" ++ n.filePath)) ∨
  (∃ name, n.id = "class:" ++ n.filePath ++ ":" ++ name ∧
    n.type = NodeType.«class» ∧ n.parentId = some ("file:" ++ n.filePath)) ∨
  (∃ cname mname, n.id = "method:" ++ n.filePath ++ ":" ++ (cname ++ "." ++ mname) ∧
    n.type = NodeType.method ∧
    n.parentId = some ("class:" ++ n.filePath ++ ":" ++ cname) ∧
    (∃ p ∈ nm, p.id = "class:" ++ n.filePath ++ ":" ++ cname ∧ p.filePath = n.filePath ∧
      p.parentId = some ("file:" ++ n.filePath)))

/-- A file node for path `fp` exists. -/
def FileNodeAt (nm : List GraphNode) (fp : String) : Prop :=
  ∃ f ∈ nm, f.id = "file:" ++ fp ∧ f.type = NodeType.file ∧ f.filePath = fp

/-- Full per-node invariant for the file-closure proof: shape, plus the
existence of the node's own file node. -/
def NodesWF (st : ExtractorState) : Prop :=
  ∀ n ∈ st.nodeMap, NodeShape st.nodeMap n ∧ FileNodeAt st.nodeMap n.filePath

/-! ## Concrete fixtures used by the closed theorems -/

/-- Scenario A facts: `a.ts` imports `{foo}` from `./b`, `b.ts` declares the
exported function `foo`.  The import fact is what `extractImportInfo`
produces for `import { foo } from './b'` inside `/p/a.ts` when `/p/a.ts` and
`/p/b.ts` exist on disk. -/
def scenarioAFacts : AnalysisResult := {
  files := ["/p/a.ts", "/p/b.ts"],
  functions := [{ name := "foo", filePath := "/p/b.ts", line := 1, column := 1,
                  isExported := true }],
  classes := [],
  imports := [extractImportInfoFact ["/p/a.ts", "/p/b.ts"] "/p/a.ts" "./b" ["foo"]
                false false],
  exports := [{ name := "foo", type := "named", filePath := "/p/b.ts" }] }

/-- Scenario A analyzer: neither file contains a call expression. -/
def scenarioAAnalyzer : Analyzer := { sources := [("/p/a.ts", []), ("/p/b.ts", [])] }

/-- An analyzer with no parsed sources. -/
def emptyAnalyzer : Analyzer := { sources := [] }

/-- Facts with a single file and nothing else. -/
def oneFileFacts : AnalysisResult :=
  { files := ["a.ts"], functions := [], classes := [], imports := [] }

/-- Empty facts. -/
def emptyFacts : AnalysisResult :=
  { files := [], functions := [], classes := [], imports := [] }

/-- A one-node graph with an edge whose target id (`ghost`) has no node. -/
def ghostEdgeGraph : GraphData := {
  nodes := [{ id := "n1", label := "n1", type := NodeType.file, filePath := "f" }],
  edges := [{ id := "e0", source := "n1", target := "ghost", type := EdgeType.call }] }

/-- Facts naming two functions in a file `F` that is missing from the file
list (so no `file:F` node is ever built). -/
def danglingFileFacts : AnalysisResult := {
  files := [],
  functions := [{ name := "g", filePath := "F" }, { name := "h", filePath := "F" }],
  classes := [], imports := [] }

/-- Well-formed two-function facts over one file. -/
def twoFunFacts : AnalysisResult := {
  files := ["f"],
  functions := [{ name := "g", filePath := "f" }, { name := "h", filePath := "f" }],
  classes := [], imports := [] }

/-- Analyzer for `twoFunFacts` with one call to `h` inside `f`. -/
def twoFunAnalyzer : Analyzer := { sources := [("f", ["h"])] }

/-- Facts with one resolvable parent (`g` in file `f`) and one dangling
parent (`h` claims file `q`, which has no node). -/
def danglingParentFacts : AnalysisResult := {
  files := ["f"],
  functions := [{ name := "g", filePath := "f" }, { name := "h", filePath := "q" }],
  classes := [], imports := [] }

/-- Every class fact already has its class node in the map (established by
step 3 of the build pass and preserved by every later step). -/
def AllClassesPresent (r : AnalysisResult) (st : ExtractorState) : Prop :=
  ∀ cls ∈ r.classes,
    ∃ n ∈ st.nodeMap, n.id = "class:" ++ cls.filePath ++ ":" ++ cls.name

/-- The node-kind tags the direct-ingestion switch recognizes. -/
def recognizedNodeTags : List String :=
  ["file", "function", "class", "method", "interface", "type", "variable"]

/-- The edge-type tags the direct-ingestion switch recognizes. -/
def recognizedEdgeTags : List String :=
  ["import", "export", "call", "extends", "implements", "reference"]

/-- The graph node the builder creates for the `h` fact of `twoFunFacts`. -/
def twoFunHNode : GraphNode :=
  { id := "function:f:h", label := "h", type := NodeType.function, filePath := "f",
    line := some 0, column := some 0, parentId := some "file:f",
    metadata := { isExported := some false, isAsync := some false,
                  parameters := some [], returnType := none } }

/-! # Theorems -/

/-! ## Generic list helpers -/

theorem foldl_induction {α σ : Type} (P : σ → Prop) (f : σ → α → σ) :
    ∀ (l : List α) (s : σ), P s → (∀ s a, a ∈ l → P s → P (f s a)) → P (l.foldl f s) := by
  intro l
  induction l with
  | nil => intro s h _; exact h
  | cons x xs ih =>
    intro s h hstep
    exact ih (f s x) (hstep s x (List.mem_cons_self x xs) h)
      (fun s a ha hp => hstep s a (List.mem_cons_of_mem x ha) hp)

theorem contains_iff_mem (l : List String) (x : String) : l.contains x = true ↔ x ∈ l := by
  simp [List.contains]

/-! ## C2: the filter-skip guard -/

/-- C2 (amended, positive half): when the `targetFile` argument is absent or
the empty string and none of the four list arguments is supplied at all,
`extractGraphData` skips the Context Filter and returns the full built
graph. -/
theorem c2_no_hints_returns_full_graph (self : ExtractorState) (analyzer : Analyzer)
    (r : AnalysisResult) (targetFile : Option String)
    (h : targetFile = none ∨ targetFile = some "") :
    extractGraphData self analyzer r targetFile none none none none =
      buildGraph analyzer r := by
  rcases h with h | h <;> subst h <;>
    simp [extractGraphData, hintGiven, truthyStr, buildGraph, buildStateFrom, clearState]

/-- Witness for `c2_no_hints_returns_full_graph` at a concrete input. -/
theorem c2_no_hints_returns_full_graph_witness :
    ((none : Option String) = none ∨ (none : Option String) = some "") ∧
      extractGraphData {} emptyAnalyzer oneFileFacts none none none none none =
        buildGraph emptyAnalyzer oneFileFacts :=
  ⟨Or.inl rfl, c2_no_hints_returns_full_graph {} emptyAnalyzer oneFileFacts none (Or.inl rfl)⟩

/-- C2 (counterexample): the claim extends the skip to "hint lists supplied
but empty"; the code treats a supplied-but-empty `relatedFiles` array as a
hint (arrays are truthy in JS), runs the filter with an empty seed set, and
returns the empty graph instead of the full one-node graph. -/
theorem c2_counterexample :
    (extractGraphData {} emptyAnalyzer oneFileFacts none (some []) none none none).nodes = []
      ∧ (buildGraph emptyAnalyzer oneFileFacts).nodes ≠ []
      ∧ extractGraphData {} emptyAnalyzer oneFileFacts none (some []) none none none ≠
          buildGraph emptyAnalyzer oneFileFacts := by
  refine ⟨by decide, by decide, by decide⟩

/-! ## C1: scenario A import edges -/

/-- C1: on scenario A the build pass creates the expected 2 file nodes and 1
function node, but no import edge leaves `file:/p/a.ts` (or any node of
`a.ts`): because `ImportInfo.from` holds the *resolved target* of the module
specifier, `createImportEdges` uses `b.ts` as the edge source and instead
emits a self-import-edge `file:/p/b.ts → file:/p/b.ts` and import edges into
`foo` from `b.ts`'s own nodes. -/
theorem c1_scenarioA_import_edges :
    ((buildGraph scenarioAAnalyzer scenarioAFacts).nodes.filter
        (fun n => n.type == NodeType.file)).length = 2 ∧
    ((buildGraph scenarioAAnalyzer scenarioAFacts).nodes.filter
        (fun n => n.type == NodeType.function)).length = 1 ∧
    (∃ n ∈ (buildGraph scenarioAAnalyzer scenarioAFacts).nodes,
        n.id = "function:/p/b.ts:foo") ∧
    (∀ e ∈ (buildGraph scenarioAAnalyzer scenarioAFacts).edges,
        e.type = EdgeType.«import» → e.source ≠ "file:/p/a.ts") ∧
    (∀ e ∈ (buildGraph scenarioAAnalyzer scenarioAFacts).edges,
        e.type = EdgeType.«import» →
          ¬(e.source = "file:/p/a.ts" ∧ e.target = "file:/p/b.ts")) ∧
    (∃ e ∈ (buildGraph scenarioAAnalyzer scenarioAFacts).edges,
        e.type = EdgeType.«import» ∧ e.source = "file:/p/b.ts" ∧
          e.target = "file:/p/b.ts") := by
  refine ⟨by decide, by decide, by decide, by decide, by decide, by decide⟩

/-! ## C8: direct graph ingestion -/

theorem enumFrom_map_forall₂ {α β : Type} (R : β → α → Prop) (f : Nat × α → β)
    (h : ∀ i a, R (f (i, a)) a) :
    ∀ (l : List α) (k : Nat), List.Forall₂ R ((l.enumFrom k).map f) l := by
  intro l
  induction l with
  | nil => intro k; exact List.Forall₂.nil
  | cons x xs ih => intro k; exact List.Forall₂.cons (h k x) (ih (k + 1))

theorem llmSpecCount_aux (nodes : List LLMNodeSpec) :
    ∀ (l : List LLMEdgeSpec) (acc : Nat),
      (l.foldl (fun acc e =>
        let acc := if nodes.any (fun n => n.id == e.source) then acc else acc + 1
        if nodes.any (fun n => n.id == e.target) then acc else acc + 1) acc = 0 ↔
      (acc = 0 ∧ ∀ e ∈ l, nodes.any (fun n => n.id == e.source) = true ∧
        nodes.any (fun n => n.id == e.target) = true)) := by
  intro l
  induction l with
  | nil => intro acc; simp
  | cons e l ih =>
    intro acc
    rw [List.foldl_cons, ih]
    have hstep : ((fun acc e =>
        let acc := if nodes.any (fun n => n.id == e.source) then acc else acc + 1
        if nodes.any (fun n => n.id == e.target) then acc else acc + 1) acc e = 0) ↔
        (acc = 0 ∧ nodes.any (fun n => n.id == e.source) = true ∧
          nodes.any (fun n => n.id == e.target) = true) := by
      by_cases hs : nodes.any (fun n => n.id == e.source) = true <;>
        by_cases ht : nodes.any (fun n => n.id == e.target) = true <;>
          simp [hs, ht]
    rw [hstep]
    constructor
    · rintro ⟨⟨hacc, hs, ht⟩, hrest⟩
      exact ⟨hacc, fun e' he' => by
        rcases List.mem_cons.mp he' with h | h
        · subst h; exact ⟨hs, ht⟩
        · exact hrest e' h⟩
    · rintro ⟨hacc, hall⟩
      obtain ⟨hs, ht⟩ := hall e (List.mem_cons_self e l)
      exact ⟨⟨hacc, hs, ht⟩, fun e' he' => hall e' (List.mem_cons_of_mem e he')⟩

/-- C8: direct ingestion never rejects its input: one output node per input
node (id and label preserved, unrecognized kind tags default to `file`), one
output edge per input edge (source and target preserved verbatim — a dangling
endpoint is retained, not dropped or corrected — and unrecognized type tags
default to `reference`), and the diagnostic count is zero exactly when every
edge endpoint names a supplied node. -/
theorem c8_llm_spec_passthrough (nodes : List LLMNodeSpec) (edges : List LLMEdgeSpec) :
    (createGraphFromLLMSpec nodes edges).nodes.length = nodes.length ∧
    (createGraphFromLLMSpec nodes edges).edges.length = edges.length ∧
    List.Forall₂ (fun (gn : GraphNode) (n : LLMNodeSpec) =>
        gn.id = n.id ∧ gn.label = n.label ∧
          (n.type ∉ recognizedNodeTags → gn.type = NodeType.file))
      (createGraphFromLLMSpec nodes edges).nodes nodes ∧
    List.Forall₂ (fun (ge : GraphEdge) (e : LLMEdgeSpec) =>
        ge.source = e.source ∧ ge.target = e.target ∧
          (e.type ∉ recognizedEdgeTags → ge.type = EdgeType.reference))
      (createGraphFromLLMSpec nodes edges).edges edges ∧
    (llmSpecMissingEndpointCount nodes edges = 0 ↔
      ∀ e ∈ edges, (∃ n ∈ nodes, n.id = e.source) ∧ (∃ n ∈ nodes, n.id = e.target)) := by
  refine ⟨?_, ?_, ?_, ?_, ?_⟩
  · simp [createGraphFromLLMSpec]
  · simp [createGraphFromLLMSpec, List.enum]
  · unfold createGraphFromLLMSpec
    rw [List.forall₂_map_left_iff, List.forall₂_same]
    intro n _
    refine ⟨rfl, rfl, fun h => ?_⟩
    simp only [recognizedNodeTags, List.mem_cons, List.not_mem_nil, or_false, not_or] at h
    obtain ⟨h1, h2, h3, h4, h5, h6, h7⟩ := h
    simp [parseNodeTypeTag, h1, h2, h3, h4, h5, h6, h7]
  · unfold createGraphFromLLMSpec
    simp only [List.enum]
    refine enumFrom_map_forall₂ _ _ (fun i e => ⟨rfl, rfl, fun h => ?_⟩) edges 0
    simp only [recognizedEdgeTags, List.mem_cons, List.not_mem_nil, or_false, not_or] at h
    obtain ⟨h1, h2, h3, h4, h5, h6⟩ := h
    simp [parseEdgeTypeTag, h1, h2, h3, h4, h5, h6]
  · unfold llmSpecMissingEndpointCount
    rw [llmSpecCount_aux]
    simp [List.any_eq_true]

/-! ## C5: the file-path resolution rule -/

theorem insertByLen_cons (x z : String) (zs : List String) :
    insertByLen x (z :: zs) =
      if x.length ≤ z.length then x :: z :: zs else z :: insertByLen x zs := rfl

theorem firstShortest_cons₂ (x y : String) (ys : List String) :
    firstShortest (x :: y :: ys) =
      if x.length ≤ (firstShortest (y :: ys)).length then x
      else firstShortest (y :: ys) := rfl

theorem insertByLen_length (x : String) :
    ∀ l : List String, (insertByLen x l).length = l.length + 1 := by
  intro l
  induction l with
  | nil => rfl
  | cons y ys ih =>
    rw [insertByLen_cons]
    by_cases h : x.length ≤ y.length <;> simp [h, ih]

theorem sortByLen_length : ∀ l : List String, (sortByLen l).length = l.length := by
  intro l
  induction l with
  | nil => rfl
  | cons x xs ih => simp [sortByLen, insertByLen_length, ih]

theorem sortByLen_head :
    ∀ l : List String, l ≠ [] → (sortByLen l).head? = some (firstShortest l) := by
  intro l
  induction l with
  | nil => intro h; exact absurd rfl h
  | cons x xs ih =>
    intro _
    match hxs : xs with
    | [] => rfl
    | y :: ys =>
      have hne : y :: ys ≠ [] := by simp
      have ihh := ih hne
      have hlen : (sortByLen (y :: ys)).length = (y :: ys).length := sortByLen_length _
      match hs : sortByLen (y :: ys) with
      | [] => rw [hs] at hlen; simp at hlen
      | z :: zs =>
        rw [hs] at ihh
        have hz : z = firstShortest (y :: ys) := by
          simpa using ihh
        show (insertByLen x (sortByLen (y :: ys))).head? =
          some (firstShortest (x :: y :: ys))
        rw [hs, insertByLen_cons, firstShortest_cons₂, ← hz]
        by_cases hle : x.length ≤ z.length <;> simp [hle]

/-- C5 (amended): `findTargetFilePath` follows the amended rule word for word
(`findTargetFilePathRef`): the candidate set is basename-equal **or**
ends-with matches, a sole candidate wins, several give the earliest of
minimal path length, none falls back to ends-with/containment over all
files. -/
theorem c5_resolution_rule (targetFile : String) (files : List String) :
    findTargetFilePath targetFile files = findTargetFilePathRef targetFile files := by
  unfold findTargetFilePath findTargetFilePathRef
  by_cases habs : isAbsolutePath targetFile = true
  · simp [habs]
  · simp only [Bool.not_eq_true] at habs
    simp only [habs, Bool.false_eq_true, if_false]
    cases hm : files.filter (fun f =>
        basenameStr f == basenameStr targetFile || strEndsWith f targetFile) with
    | nil => simp
    | cons c₁ cs =>
      cases cs with
      | nil => simp
      | cons c₂ cs' =>
        have h1 : ((c₁ :: c₂ :: cs').length == 1) = false := by
          simp [List.length_cons]
        have h2 : (c₁ :: c₂ :: cs').length > 1 := by
          simp [List.length_cons]
        simp only [h1, Bool.false_eq_true, if_false, h2, if_true]
        rw [sortByLen_head _ (by simp)]

/-- C5 (counterexample): with files `ab.ts` and `x/y/b.ts` and the hint
`b.ts`, exactly one file's basename equals the hint's basename (`x/y/b.ts`),
yet the code returns `ab.ts` — because `ab.ts` matches by `endsWith` and then
wins the shortest-path sort. -/
theorem c5_counterexample :
    (["ab.ts", "x/y/b.ts"].filter
        (fun f => basenameStr f == basenameStr "b.ts")) = ["x/y/b.ts"] ∧
    findTargetFilePath "b.ts" ["ab.ts", "x/y/b.ts"] = some "ab.ts" ∧
    findTargetFilePath "b.ts" ["ab.ts", "x/y/b.ts"] ≠ some "x/y/b.ts" := by
  refine ⟨by decide, by decide, by decide⟩

/-! ## C4: no dangling edge escapes the filter -/

/-- C4 (amended): over any input graph **whose own edges are not dangling**
(every edge endpoint is the id of some input node — true of every graph the
program hands the filter, see `c10_built_graph_no_dangling_edges`), both
endpoints of every filtered edge are among the filtered nodes. -/
theorem c4_filter_no_dangling_edges (g : GraphData) (r : AnalysisResult)
    (targetFile : Option String) (relatedFiles : Option (List String))
    (relatedFunctions : Option (List FunctionHint))
    (relatedClasses : Option (List ClassHint)) (focusNodes : Option (List String))
    (h : ∀ e ∈ g.edges,
      (∃ n ∈ g.nodes, n.id = e.source) ∧ (∃ n ∈ g.nodes, n.id = e.target)) :
    ∀ e ∈ (filterGraphByLLMContext g r targetFile relatedFiles relatedFunctions
        relatedClasses focusNodes).edges,
      (∃ n ∈ (filterGraphByLLMContext g r targetFile relatedFiles relatedFunctions
          relatedClasses focusNodes).nodes, n.id = e.source) ∧
      (∃ n ∈ (filterGraphByLLMContext g r targetFile relatedFiles relatedFunctions
          relatedClasses focusNodes).nodes, n.id = e.target) := by
  intro e he
  unfold filterGraphByLLMContext applyRelFilter at he ⊢
  set rel := finalRelated g r targetFile relatedFiles relatedFunctions relatedClasses
    focusNodes with hrel
  simp only [List.mem_filter, Bool.and_eq_true] at he
  obtain ⟨heg, hsrc, htgt⟩ := he
  obtain ⟨⟨ns, hns, hnsid⟩, ⟨nt, hnt, hntid⟩⟩ := h e heg
  refine ⟨⟨ns, ?_, hnsid⟩, ⟨nt, ?_, hntid⟩⟩
  · simp only [List.mem_filter]
    exact ⟨hns, by rw [hnsid]; exact hsrc⟩
  · simp only [List.mem_filter]
    exact ⟨hnt, by rw [hntid]; exact htgt⟩

/-- Witness for `c4_filter_no_dangling_edges` at a concrete input. -/
theorem c4_filter_no_dangling_edges_witness :
    (∀ e ∈ (buildGraph emptyAnalyzer twoFunFacts).edges,
      (∃ n ∈ (buildGraph emptyAnalyzer twoFunFacts).nodes, n.id = e.source) ∧
      (∃ n ∈ (buildGraph emptyAnalyzer twoFunFacts).nodes, n.id = e.target)) ∧
    (∀ e ∈ (filterGraphByLLMContext (buildGraph emptyAnalyzer twoFunFacts) twoFunFacts
        none none none none (some ["function:f:g"])).edges,
      (∃ n ∈ (filterGraphByLLMContext (buildGraph emptyAnalyzer twoFunFacts) twoFunFacts
          none none none none (some ["function:f:g"])).nodes, n.id = e.source) ∧
      (∃ n ∈ (filterGraphByLLMContext (buildGraph emptyAnalyzer twoFunFacts) twoFunFacts
          none none none none (some ["function:f:g"])).nodes, n.id = e.target)) :=
  ⟨by decide,
    c4_filter_no_dangling_edges (buildGraph emptyAnalyzer twoFunFacts) twoFunFacts
      none none none none (some ["function:f:g"]) (by decide)⟩

/-- C4 (counterexample): fed a graph that itself contains a dangling edge
(`n1 → ghost`), the filter's walk adds the ghost id to the related set and
the returned edge list keeps the edge although no returned node has id
`ghost` — so, quantified over every input graph, the claim is false. -/
theorem c4_counterexample :
    ∃ e ∈ (filterGraphByLLMContext ghostEdgeGraph emptyFacts
        none none none none (some ["n1"])).edges,
      ¬∃ n ∈ (filterGraphByLLMContext ghostEdgeGraph emptyFacts
          none none none none (some ["n1"])).nodes, n.id = e.target := by
  decide

/-! ## Builder-state invariant machinery -/

theorem nmHas_iff (nm : List GraphNode) (id : String) :
    nmHas nm id = true ↔ ∃ n ∈ nm, n.id = id := by
  simp [nmHas, List.any_eq_true]

theorem nmHas_false (nm : List GraphNode) (id : String) (h : nmHas nm id = false) :
    ∀ n ∈ nm, n.id ≠ id := by
  intro n hn heq
  have hh : nmHas nm id = true := (nmHas_iff nm id).mpr ⟨n, hn, heq⟩
  rw [h] at hh
  exact Bool.false_ne_true hh

theorem emHas_iff (em : List GraphEdge) (id : String) :
    emHas em id = true ↔ ∃ e ∈ em, e.id = id := by
  simp [emHas, List.any_eq_true]

theorem nmGet_some {nm : List GraphNode} {id : String} {n : GraphNode}
    (h : nmGet nm id = some n) : n ∈ nm ∧ n.id = id := by
  unfold nmGet at h
  exact ⟨List.mem_of_find?_eq_some h, by simpa using List.find?_some h⟩

theorem ftnGet_mem {ftn : List (String × List String)} {p id : String}
    (h : id ∈ ftnGet ftn p) : ∃ pr ∈ ftn, pr.1 = p ∧ id ∈ pr.2 := by
  unfold ftnGet at h
  cases hf : ftn.find? (fun pr => pr.1 == p) with
  | none => rw [hf] at h; simp at h
  | some pr =>
    rw [hf] at h
    have h' : id ∈ pr.2 := by simpa using h
    exact ⟨pr, List.mem_of_find?_eq_some hf, by simpa using List.find?_some hf, h'⟩

theorem edgeInv_mono {nm nm' : List GraphNode} (hsub : ∀ n ∈ nm, n ∈ nm')
    (e : GraphEdge) (h : EdgeInv nm e) : EdgeInv nm' e := by
  obtain ⟨h1, ⟨s, hs, hs'⟩, ⟨t, ht, ht'⟩, h4, h5⟩ := h
  refine ⟨h1, ⟨s, hsub s hs, hs'⟩, ⟨t, hsub t ht, ht'⟩, ?_, ?_⟩
  · intro hc
    obtain ⟨hlab, a, ha, b, hb, hh⟩ := h4 hc
    exact ⟨hlab, a, hsub a ha, b, hsub b hb, hh⟩
  · intro hr
    obtain ⟨hl, m, hm, hh⟩ := h5 hr
    exact ⟨hl, m, hsub m hm, hh⟩

/-- A build step only ever appends to the node and edge maps. -/
def stepExtends (st st' : ExtractorState) : Prop :=
  (∀ n ∈ st.nodeMap, n ∈ st'.nodeMap) ∧ (∀ e ∈ st.edgeMap, e ∈ st'.edgeMap)

theorem stepExtends_refl (st : ExtractorState) : stepExtends st st :=
  ⟨fun _ h => h, fun _ h => h⟩

theorem stepExtends_trans {s t u : ExtractorState}
    (h₁ : stepExtends s t) (h₂ : stepExtends t u) : stepExtends s u :=
  ⟨fun n hn => h₂.1 n (h₁.1 n hn), fun e he => h₂.2 e (h₁.2 e he)⟩

theorem stInv_addNode (st : ExtractorState) (node : GraphNode)
    (hinv : StInv st) (hfresh : nmHas st.nodeMap node.id = false)
    (ftn' : List (String × List String))
    (hftn : ∀ pr ∈ ftn', ∀ id ∈ pr.2,
      ∃ n ∈ st.nodeMap ++ [node], n.id = id ∧ n.filePath = pr.1) :
    StInv { st with nodeMap := st.nodeMap ++ [node], fileToNodes := ftn' } := by
  refine ⟨?_, hinv.edgeNodup, hftn, ?_⟩
  · rw [List.map_append]
    refine List.Nodup.append hinv.nodeNodup (List.nodup_singleton _) ?_
    intro a ha hb
    simp only [List.map_singleton, List.mem_singleton] at hb
    subst hb
    obtain ⟨m, hm, hmid⟩ := List.mem_map.mp ha
    exact nmHas_false _ _ hfresh m hm hmid
  · intro e he
    exact edgeInv_mono (fun n hn => List.mem_append_left _ hn) e (hinv.edgeOk e he)

theorem ftnPush_ok (st : ExtractorState) (node : GraphNode) (p : String)
    (hinv : StInv st) (hfp : node.filePath = p) :
    ∀ pr ∈ ftnPush st.fileToNodes p node.id, ∀ id ∈ pr.2,
      ∃ n ∈ st.nodeMap ++ [node], n.id = id ∧ n.filePath = pr.1 := by
  intro pr hpr id hid
  unfold ftnPush at hpr
  split at hpr
  · obtain ⟨pr₀, hpr₀, hmap⟩ := List.mem_map.mp hpr
    by_cases hp : pr₀.1 == p
    · rw [if_pos hp] at hmap
      subst hmap
      simp only at hid
      rcases List.mem_append.mp hid with hold | hnew
      · obtain ⟨n, hn, hnid, hnfp⟩ := hinv.ftnOk pr₀ hpr₀ id hold
        exact ⟨n, List.mem_append_left _ hn, hnid, hnfp⟩
      · simp only [List.mem_singleton] at hnew
        subst hnew
        refine ⟨node, List.mem_append_right _ (List.mem_singleton.mpr rfl), rfl, ?_⟩
        simp only
        rw [hfp, eq_comm]
        exact beq_iff_eq.mp hp
    · rw [if_neg hp] at hmap
      subst hmap
      obtain ⟨n, hn, hnid, hnfp⟩ := hinv.ftnOk pr₀ hpr₀ id hid
      exact ⟨n, List.mem_append_left _ hn, hnid, hnfp⟩
  · rcases List.mem_append.mp hpr with hold | hnew
    · obtain ⟨n, hn, hnid, hnfp⟩ := hinv.ftnOk pr hold id hid
      exact ⟨n, List.mem_append_left _ hn, hnid, hnfp⟩
    · simp only [List.mem_singleton] at hnew
      subst hnew
      simp only [List.mem_singleton] at hid
      subst hid
      exact ⟨node, List.mem_append_right _ (List.mem_singleton.mpr rfl), rfl, hfp⟩

theorem stInv_addNodeFtn (st : ExtractorState) (node : GraphNode) (p : String)
    (hinv : StInv st) (hfresh : nmHas st.nodeMap node.id = false)
    (hfp : node.filePath = p) :
    StInv { st with nodeMap := st.nodeMap ++ [node],
                    fileToNodes := ftnPush st.fileToNodes p node.id } :=
  stInv_addNode st node hinv hfresh _ (ftnPush_ok st node p hinv hfp)

theorem stInv_createFileNode (st : ExtractorState) (p : String) (h : StInv st) :
    StInv (createFileNode st p) := by
  unfold createFileNode
  dsimp only
  split
  · exact h
  · rename_i hfresh
    exact stInv_addNodeFtn st _ p h (by simpa using hfresh) rfl

theorem stInv_createFunctionNode (st : ExtractorState) (f : FunctionInfo) (h : StInv st) :
    StInv (createFunctionNode st f) := by
  unfold createFunctionNode
  dsimp only
  split
  · exact h
  · rename_i hfresh
    exact stInv_addNodeFtn st _ f.filePath h (by simpa using hfresh) rfl

theorem stInv_createClassNode (st : ExtractorState) (c : ClassInfo) (h : StInv st) :
    StInv (createClassNode st c) := by
  unfold createClassNode
  dsimp only
  split
  · exact h
  · rename_i hfresh
    exact stInv_addNodeFtn st _ c.filePath h (by simpa using hfresh) rfl

theorem stInv_createMethodNode (st : ExtractorState) (m : MethodInfo) (c : ClassInfo)
    (h : StInv st) : StInv (createMethodNode st m c) := by
  unfold createMethodNode
  dsimp only
  split
  · exact h
  · rename_i hfresh
    refine ⟨?_, h.edgeNodup, ?_, ?_⟩
    · rw [List.map_append]
      refine List.Nodup.append h.nodeNodup (List.nodup_singleton _) ?_
      intro a ha hb
      simp only [List.map_singleton, List.mem_singleton] at hb
      subst hb
      obtain ⟨n, hn, hnid⟩ := List.mem_map.mp ha
      exact nmHas_false _ _ (by simpa using hfresh) n hn hnid
    · intro pr hpr id hid
      obtain ⟨n, hn, hnid, hnfp⟩ := h.ftnOk pr hpr id hid
      exact ⟨n, List.mem_append_left _ hn, hnid, hnfp⟩
    · intro e he
      exact edgeInv_mono (fun n hn => List.mem_append_left _ hn) e (h.edgeOk e he)

theorem stInv_addEdge (st : ExtractorState) (e : GraphEdge) (h : StInv st)
    (he : EdgeInv st.nodeMap e) : StInv (addEdgeIfAbsent st e) := by
  unfold addEdgeIfAbsent
  split
  · exact h
  · rename_i hfresh
    refine ⟨h.nodeNodup, ?_, h.ftnOk, ?_⟩
    · rw [List.map_append]
      refine List.Nodup.append h.edgeNodup (List.nodup_singleton _) ?_
      intro a ha hb
      simp only [List.map_singleton, List.mem_singleton] at hb
      subst hb
      obtain ⟨e', he', he'id⟩ := List.mem_map.mp ha
      have : emHas st.edgeMap e.id = true := emHas_iff _ _ |>.mpr ⟨e', he', he'id⟩
      exact absurd this (by simpa using hfresh)
    · intro e' he'
      rcases List.mem_append.mp he' with hold | hnew
      · exact h.edgeOk e' hold
      · simp only [List.mem_singleton] at hnew
        subst hnew
        exact he

/-! Per-operation extension lemmas (states only grow). -/

theorem extends_createFileNode (st : ExtractorState) (p : String) :
    stepExtends st (createFileNode st p) := by
  unfold createFileNode
  dsimp only
  split
  · exact stepExtends_refl st
  · exact ⟨fun n hn => List.mem_append_left _ hn, fun e he => he⟩

theorem extends_createFunctionNode (st : ExtractorState) (f : FunctionInfo) :
    stepExtends st (createFunctionNode st f) := by
  unfold createFunctionNode
  dsimp only
  split
  · exact stepExtends_refl st
  · exact ⟨fun n hn => List.mem_append_left _ hn, fun e he => he⟩

theorem extends_createClassNode (st : ExtractorState) (c : ClassInfo) :
    stepExtends st (createClassNode st c) := by
  unfold createClassNode
  dsimp only
  split
  · exact stepExtends_refl st
  · exact ⟨fun n hn => List.mem_append_left _ hn, fun e he => he⟩

theorem extends_createMethodNode (st : ExtractorState) (m : MethodInfo) (c : ClassInfo) :
    stepExtends st (createMethodNode st m c) := by
  unfold createMethodNode
  dsimp only
  split
  · exact stepExtends_refl st
  · exact ⟨fun n hn => List.mem_append_left _ hn, fun e he => he⟩

theorem extends_addEdge (st : ExtractorState) (e : GraphEdge) :
    stepExtends st (addEdgeIfAbsent st e) := by
  unfold addEdgeIfAbsent
  split
  · exact stepExtends_refl st
  · exact ⟨fun n hn => hn, fun e' he' => List.mem_append_left _ he'⟩

theorem addEdge_nodeMap (st : ExtractorState) (e : GraphEdge) :
    (addEdgeIfAbsent st e).nodeMap = st.nodeMap := by
  unfold addEdgeIfAbsent; split <;> rfl

theorem addEdge_ftn (st : ExtractorState) (e : GraphEdge) :
    (addEdgeIfAbsent st e).fileToNodes = st.fileToNodes := by
  unfold addEdgeIfAbsent; split <;> rfl

theorem foldl_extends {α : Type} (f : ExtractorState → α → ExtractorState)
    (l : List α) (st : ExtractorState)
    (hf : ∀ s a, a ∈ l → stepExtends s (f s a)) : stepExtends st (l.foldl f st) := by
  induction l generalizing st with
  | nil => exact stepExtends_refl st
  | cons x xs ih =>
    exact stepExtends_trans (hf st x (List.mem_cons_self x xs))
      (ih (f st x) (fun s a ha => hf s a (List.mem_cons_of_mem x ha)))

theorem findNodeByName_some {nm : List GraphNode} {name : String} {t : NodeType}
    {id : String} (h : findNodeByName nm name t = some id) : ∃ n ∈ nm, n.id = id := by
  unfold findNodeByName at h
  cases hf : nm.find? (fun node => node.label == name && node.type == t) with
  | none => rw [hf] at h; simp at h
  | some n =>
    rw [hf] at h
    simp only [Option.map] at h
    exact ⟨n, List.mem_of_find?_eq_some hf, by simpa using h⟩

theorem findCallerNode_some {st : ExtractorState} {callNode : GraphNode} {cid : String}
    (hinv : StInv st) (h : findCallerNode st callNode = some cid) :
    ∃ m ∈ st.nodeMap, m.id = cid ∧ m.filePath = callNode.filePath := by
  unfold findCallerNode at h
  obtain ⟨nodeId, hmem, hf⟩ := List.exists_of_findSome?_eq_some h
  obtain ⟨pr, hpr, hpr1, hid2⟩ := ftnGet_mem hmem
  obtain ⟨n, hn, hnid, hnfp⟩ := hinv.ftnOk pr hpr nodeId hid2
  have hcid : cid = nodeId := by
    cases hget : nmGet st.nodeMap nodeId with
    | none => rw [hget] at hf; simp at hf
    | some node =>
      rw [hget] at hf
      dsimp only at hf
      by_cases ht : (node.type == NodeType.function) = true
      · rw [if_pos ht] at hf
        exact (Option.some_inj.mp hf).symm
      · rw [if_neg ht] at hf; simp at hf
  subst hcid
  exact ⟨n, hn, hnid, by rw [hnfp, hpr1]⟩

/-! ## Invariant preservation, phase by phase -/

theorem stInv_importNodeEdge (i : ImportInfo) (importName sourceNodeId : String)
    (st : ExtractorState) (tid : String) (h : StInv st)
    (hsrc : ∃ n ∈ st.nodeMap, n.id = sourceNodeId) :
    StInv (importNodeEdge i importName sourceNodeId st tid) ∧
      stepExtends st (importNodeEdge i importName sourceNodeId st tid) := by
  unfold importNodeEdge
  cases hget : nmGet st.nodeMap tid with
  | none => exact ⟨h, stepExtends_refl st⟩
  | some targetNode =>
    dsimp only
    split
    · obtain ⟨htm, htid⟩ := nmGet_some hget
      refine ⟨stInv_addEdge st _ h ?_, extends_addEdge st _⟩
      refine ⟨rfl, hsrc, ⟨targetNode, htm, htid⟩, ?_, ?_⟩
      · intro hc; simp at hc
      · intro hr; simp at hr
    · exact ⟨h, stepExtends_refl st⟩

theorem stInv_ensureFileEntry (st : ExtractorState) (targetFile : String)
    (h : StInv st) :
    StInv (ensureFileEntry st targetFile) ∧ stepExtends st (ensureFileEntry st targetFile) := by
  unfold ensureFileEntry
  split
  · exact ⟨h, stepExtends_refl st⟩
  · exact ⟨stInv_createFileNode st _ h, extends_createFileNode st _⟩

theorem stInv_importFileEdge (i : ImportInfo) (importName sourceFileNodeId : String)
    (targetFile : String) (st : ExtractorState) (h : StInv st) :
    StInv (importFileEdge i importName sourceFileNodeId targetFile st) ∧
      stepExtends st (importFileEdge i importName sourceFileNodeId targetFile st) := by
  unfold importFileEdge
  split
  · rename_i hand
    rw [Bool.and_eq_true] at hand
    refine ⟨stInv_addEdge st _ h ?_, extends_addEdge st _⟩
    refine ⟨rfl, ?_, ?_, ?_, ?_⟩
    · exact (nmHas_iff _ _).mp hand.1
    · exact (nmHas_iff _ _).mp hand.2
    · intro hc; simp at hc
    · intro hr; simp at hr
  · exact ⟨h, stepExtends_refl st⟩

theorem stInv_importNameStep (i : ImportInfo) (sfn : List String)
    (st₁ : ExtractorState) (hsrcs : ∀ id ∈ sfn, ∃ n ∈ st₁.nodeMap, n.id = id)
    (st : ExtractorState) (importName : String)
    (hinv : StInv st) (hext : stepExtends st₁ st) :
    StInv (importNameStep i sfn st importName) ∧
      stepExtends st (importNameStep i sfn st importName) := by
  unfold importNameStep
  cases hf : findFileByExport st.nodeMap importName with
  | none => exact ⟨hinv, stepExtends_refl st⟩
  | some targetFile =>
    dsimp only
    obtain ⟨hinvA, hextA⟩ := stInv_ensureFileEntry st targetFile hinv
    obtain ⟨hinvB, hextB⟩ := stInv_importFileEdge i importName (sfn.headD "") targetFile
      (ensureFileEntry st targetFile) hinvA
    have hfold := foldl_induction
      (fun s => StInv s ∧ stepExtends (importFileEdge i importName (sfn.headD "")
        targetFile (ensureFileEntry st targetFile)) s)
      (fun st' sourceNodeId => (ftnGet (ensureFileEntry st targetFile).fileToNodes
        targetFile).foldl (importNodeEdge i importName sourceNodeId) st')
      sfn
      (importFileEdge i importName (sfn.headD "") targetFile (ensureFileEntry st targetFile))
      ⟨hinvB, stepExtends_refl _⟩
      ?_
    · exact ⟨hfold.1, stepExtends_trans hextA (stepExtends_trans hextB hfold.2)⟩
    · intro s nodeId hmem hp
      have hsrc : ∃ n ∈ s.nodeMap, n.id = nodeId := by
        obtain ⟨n, hn, hnid⟩ := hsrcs nodeId hmem
        exact ⟨n, hp.2.1 n (hextB.1 n (hextA.1 n (hext.1 n hn))), hnid⟩
      have hQ := foldl_induction
        (fun s' => StInv s' ∧ stepExtends s s' ∧ ∃ n ∈ s'.nodeMap, n.id = nodeId)
        (importNodeEdge i importName nodeId)
        (ftnGet (ensureFileEntry st targetFile).fileToNodes targetFile) s
        ⟨hp.1, stepExtends_refl s, hsrc⟩
        ?_
      · exact ⟨hQ.1, stepExtends_trans hp.2 hQ.2.1⟩
      · intro s' tid _ hq
        have hr := stInv_importNodeEdge i importName nodeId s' tid hq.1 hq.2.2
        refine ⟨hr.1, stepExtends_trans hq.2.1 hr.2, ?_⟩
        obtain ⟨n, hn, hnid⟩ := hq.2.2
        exact ⟨n, hr.2.1 n hn, hnid⟩

theorem stInv_importSourceState (st0 : ExtractorState) (i : ImportInfo) (h : StInv st0) :
    StInv (importSourceState st0 i) ∧ stepExtends st0 (importSourceState st0 i) := by
  unfold importSourceState
  split
  · split
    · exact ⟨h, stepExtends_refl st0⟩
    · exact ⟨stInv_createFileNode st0 _ h, extends_createFileNode st0 _⟩
  · exact ⟨h, stepExtends_refl st0⟩

theorem stInv_createImportEdges (st0 : ExtractorState) (i : ImportInfo) (h : StInv st0) :
    StInv (createImportEdges st0 i) ∧ stepExtends st0 (createImportEdges st0 i) := by
  unfold createImportEdges
  dsimp only
  obtain ⟨hinv₁, hext₁⟩ := stInv_importSourceState st0 i h
  split
  · exact ⟨hinv₁, hext₁⟩
  · have hsrcs : ∀ id ∈ ftnGet (importSourceState st0 i).fileToNodes i.«from»,
        ∃ n ∈ (importSourceState st0 i).nodeMap, n.id = id := by
      intro id hid
      obtain ⟨pr, hpr, hpr1, hid2⟩ := ftnGet_mem hid
      obtain ⟨n, hn, hnid, _⟩ := hinv₁.ftnOk pr hpr id hid2
      exact ⟨n, hn, hnid⟩
    have hfold := foldl_induction
      (fun s => StInv s ∧ stepExtends (importSourceState st0 i) s)
      (importNameStep i (ftnGet (importSourceState st0 i).fileToNodes i.«from»))
      i.imports (importSourceState st0 i) ⟨hinv₁, stepExtends_refl _⟩ ?_
    · exact ⟨hfold.1, stepExtends_trans hext₁ hfold.2⟩
    · intro s importName _ hp
      have hr := stInv_importNameStep i _ (importSourceState st0 i) hsrcs s importName
        hp.1 hp.2
      exact ⟨hr.1, stepExtends_trans hp.2 hr.2⟩

/-! Call phase: `extractCallEdges` writes only the edge map. -/

theorem addCallEdgeFor_maps (functionName : String) (st : ExtractorState) (nodeId : String) :
    (addCallEdgeFor functionName st nodeId).nodeMap = st.nodeMap ∧
    (addCallEdgeFor functionName st nodeId).fileToNodes = st.fileToNodes := by
  unfold addCallEdgeFor
  cases nmGet st.nodeMap nodeId with
  | none => exact ⟨rfl, rfl⟩
  | some node =>
    dsimp only
    split
    · cases findCallerNode st node with
      | none => exact ⟨rfl, rfl⟩
      | some cid => exact ⟨addEdge_nodeMap st _, addEdge_ftn st _⟩
    · exact ⟨rfl, rfl⟩

theorem stInv_addCallEdgeFor (functionName : String) (st : ExtractorState)
    (nodeId : String) (h : StInv st) :
    StInv (addCallEdgeFor functionName st nodeId) ∧
      stepExtends st (addCallEdgeFor functionName st nodeId) := by
  unfold addCallEdgeFor
  cases hget : nmGet st.nodeMap nodeId with
  | none => exact ⟨h, stepExtends_refl st⟩
  | some node =>
    dsimp only
    split
    · cases hcall : findCallerNode st node with
      | none => exact ⟨h, stepExtends_refl st⟩
      | some callerNodeId =>
        obtain ⟨htm, htid⟩ := nmGet_some hget
        obtain ⟨m, hm, hmid, hmfp⟩ := findCallerNode_some h hcall
        refine ⟨stInv_addEdge st _ h ?_, extends_addEdge st _⟩
        refine ⟨rfl, ⟨m, hm, hmid⟩, ⟨node, htm, htid⟩, ?_, ?_⟩
        · intro _
          exact ⟨rfl, m, hm, node, htm, hmid, htid, hmfp⟩
        · intro hr; simp at hr
    · exact ⟨h, stepExtends_refl st⟩

theorem stInv_extractCallEdges (st0 : ExtractorState) (fp : String)
    (names : List String) (h : StInv st0) :
    StInv (extractCallEdges st0 fp names) ∧
      stepExtends st0 (extractCallEdges st0 fp names) ∧
      (extractCallEdges st0 fp names).nodeMap = st0.nodeMap ∧
      (extractCallEdges st0 fp names).fileToNodes = st0.fileToNodes := by
  unfold extractCallEdges
  have hP := foldl_induction
    (fun s => StInv s ∧ stepExtends st0 s ∧ s.nodeMap = st0.nodeMap ∧
      s.fileToNodes = st0.fileToNodes)
    (callEdgesForName fp) names st0
    ⟨h, stepExtends_refl st0, rfl, rfl⟩ ?_
  · exact hP
  · intro s functionName _ hp
    unfold callEdgesForName
    have hQ := foldl_induction
      (fun s' => StInv s' ∧ stepExtends st0 s' ∧ s'.nodeMap = st0.nodeMap ∧
        s'.fileToNodes = st0.fileToNodes)
      (addCallEdgeFor functionName) (ftnGet s.fileToNodes fp) s hp ?_
    · exact hQ
    · intro s' nodeId _ hq
      obtain ⟨hi, he⟩ := stInv_addCallEdgeFor functionName s' nodeId hq.1
      obtain ⟨hm1, hm2⟩ := addCallEdgeFor_maps functionName s' nodeId
      exact ⟨hi, stepExtends_trans hq.2.1 he, by rw [hm1, hq.2.2.1],
        by rw [hm2, hq.2.2.2]⟩

theorem stInv_callFileStep (a : Analyzer) (st : ExtractorState) (p : String)
    (h : StInv st) :
    StInv (callFileStep a st p) ∧ stepExtends st (callFileStep a st p) ∧
      (callFileStep a st p).nodeMap = st.nodeMap ∧
      (callFileStep a st p).fileToNodes = st.fileToNodes := by
  unfold callFileStep
  cases a.getSourceFile p with
  | none => exact ⟨h, stepExtends_refl st, rfl, rfl⟩
  | some callNames => exact stInv_extractCallEdges st p callNames h

/-! Inheritance phase. -/

theorem stInv_implementsEdgeFor (classNodeId : String) (st : ExtractorState)
    (interfaceName : String) (h : StInv st)
    (hcls : ∃ n ∈ st.nodeMap, n.id = classNodeId) :
    StInv (implementsEdgeFor classNodeId st interfaceName) ∧
      stepExtends st (implementsEdgeFor classNodeId st interfaceName) := by
  unfold implementsEdgeFor
  cases hf : findNodeByName st.nodeMap interfaceName NodeType.interface with
  | none => exact ⟨h, stepExtends_refl st⟩
  | some implementsNodeId =>
    refine ⟨stInv_addEdge st _ h ?_, extends_addEdge st _⟩
    refine ⟨rfl, hcls, findNodeByName_some hf, ?_, ?_⟩
    · intro hc; simp at hc
    · intro hr; simp at hr

theorem stInv_createInheritanceEdges (st : ExtractorState) (cls : ClassInfo)
    (h : StInv st)
    (hcls : ∃ n ∈ st.nodeMap, n.id = "class:" ++ cls.filePath ++ ":" ++ cls.name) :
    StInv (createInheritanceEdges st cls) ∧
      stepExtends st (createInheritanceEdges st cls) := by
  unfold createInheritanceEdges
  dsimp only
  have hmid : ∀ (s₂ : ExtractorState), StInv s₂ → stepExtends st s₂ →
      StInv (cls.«implements».foldl
        (implementsEdgeFor ("class:" ++ cls.filePath ++ ":" ++ cls.name)) s₂) ∧
      stepExtends s₂ (cls.«implements».foldl
        (implementsEdgeFor ("class:" ++ cls.filePath ++ ":" ++ cls.name)) s₂) := by
    intro s₂ hinv₂ hext₂
    have hP := foldl_induction (fun s => StInv s ∧ stepExtends s₂ s)
      (implementsEdgeFor ("class:" ++ cls.filePath ++ ":" ++ cls.name))
      cls.«implements» s₂ ⟨hinv₂, stepExtends_refl s₂⟩ ?_
    · exact hP
    · intro s iname _ hp
      have hcls' : ∃ n ∈ s.nodeMap, n.id = "class:" ++ cls.filePath ++ ":" ++ cls.name := by
        obtain ⟨n, hn, hnid⟩ := hcls
        exact ⟨n, hp.2.1 n (hext₂.1 n hn), hnid⟩
      obtain ⟨hi, he⟩ := stInv_implementsEdgeFor _ s iname hp.1 hcls'
      exact ⟨hi, stepExtends_trans hp.2 he⟩
  cases hext : cls.«extends» with
  | none =>
    obtain ⟨hi, he⟩ := hmid st h (stepExtends_refl st)
    exact ⟨hi, he⟩
  | some ext =>
    dsimp only
    split
    · obtain ⟨hi, he⟩ := hmid st h (stepExtends_refl st)
      exact ⟨hi, he⟩
    · cases hf : findNodeByName st.nodeMap ext NodeType.«class» with
      | none =>
        obtain ⟨hi, he⟩ := hmid st h (stepExtends_refl st)
        exact ⟨hi, he⟩
      | some extendsNodeId =>
        have hinv' : StInv (addEdgeIfAbsent st
            { id := "extends:" ++ ("class:" ++ cls.filePath ++ ":" ++ cls.name) ++ ":" ++
                extendsNodeId,
              source := "class:" ++ cls.filePath ++ ":" ++ cls.name,
              target := extendsNodeId,
              type := EdgeType.«extends», label := some "extends" }) := by
          refine stInv_addEdge st _ h ?_
          refine ⟨rfl, hcls, findNodeByName_some hf, ?_, ?_⟩
          · intro hc; simp at hc
          · intro hr; simp at hr
        obtain ⟨hi, he⟩ := hmid _ hinv' (extends_addEdge st _)
        exact ⟨hi, stepExtends_trans (extends_addEdge st _) he⟩

/-! Parent-child phase: the node map never changes. -/

theorem stInv_parentChildStep (st : ExtractorState) (node : GraphNode)
    (h : StInv st) (hnode : node ∈ st.nodeMap) :
    StInv (parentChildStep st node) ∧ stepExtends st (parentChildStep st node) ∧
      (parentChildStep st node).nodeMap = st.nodeMap ∧
      (parentChildStep st node).fileToNodes = st.fileToNodes := by
  unfold parentChildStep
  cases hp : node.parentId with
  | none => exact ⟨h, stepExtends_refl st, rfl, rfl⟩
  | some pid =>
    dsimp only
    split
    · exact ⟨h, stepExtends_refl st, rfl, rfl⟩
    · split
      · rename_i hhas
        refine ⟨stInv_addEdge st _ h ?_, extends_addEdge st _,
          addEdge_nodeMap st _, addEdge_ftn st _⟩
        refine ⟨rfl, (nmHas_iff _ _).mp hhas, ⟨node, hnode, rfl⟩, ?_, ?_⟩
        · intro hc; simp at hc
        · intro _
          exact ⟨rfl, node, hnode, rfl, hp⟩
      · exact ⟨h, stepExtends_refl st, rfl, rfl⟩

theorem stInv_createParentChildEdges (st0 : ExtractorState) (h : StInv st0) :
    StInv (createParentChildEdges st0) ∧ stepExtends st0 (createParentChildEdges st0) ∧
      (createParentChildEdges st0).nodeMap = st0.nodeMap ∧
      (createParentChildEdges st0).fileToNodes = st0.fileToNodes := by
  unfold createParentChildEdges
  have hP := foldl_induction
    (fun s => StInv s ∧ stepExtends st0 s ∧ s.nodeMap = st0.nodeMap ∧
      s.fileToNodes = st0.fileToNodes)
    parentChildStep st0.nodeMap st0 ⟨h, stepExtends_refl st0, rfl, rfl⟩ ?_
  · exact hP
  · intro s node hmem hp
    obtain ⟨hi, he, hmap, hftn⟩ := stInv_parentChildStep s node hp.1
      (by rw [hp.2.2.1]; exact hmem)
    exact ⟨hi, stepExtends_trans hp.2.1 he, by rw [hmap, hp.2.2.1],
      by rw [hftn, hp.2.2.2]⟩

/-! Assembling the full build pass. -/

theorem stInv_buildNodesPhase (st0 : ExtractorState) (r : AnalysisResult)
    (h : StInv st0) :
    StInv (buildNodesPhase st0 r) ∧ stepExtends st0 (buildNodesPhase st0 r) := by
  unfold buildNodesPhase
  dsimp only
  have h1 := foldl_induction (fun s => StInv s ∧ stepExtends st0 s) createFileNode
    r.files st0 ⟨h, stepExtends_refl st0⟩
    (fun s p _ hp => ⟨stInv_createFileNode s p hp.1,
      stepExtends_trans hp.2 (extends_createFileNode s p)⟩)
  have h2 := foldl_induction (fun s => StInv s ∧ stepExtends st0 s) createFunctionNode
    r.functions _ h1
    (fun s f _ hp => ⟨stInv_createFunctionNode s f hp.1,
      stepExtends_trans hp.2 (extends_createFunctionNode s f)⟩)
  have h3 := foldl_induction (fun s => StInv s ∧ stepExtends st0 s) createClassNode
    r.classes _ h2
    (fun s c _ hp => ⟨stInv_createClassNode s c hp.1,
      stepExtends_trans hp.2 (extends_createClassNode s c)⟩)
  exact foldl_induction (fun s => StInv s ∧ stepExtends st0 s) createMethodNodes
    r.classes _ h3
    (fun s c _ hp => by
      unfold createMethodNodes
      have hQ := foldl_induction (fun s' => StInv s' ∧ stepExtends st0 s')
        (fun st m => createMethodNode st m c) c.methods s hp
        (fun s' m _ hq => ⟨stInv_createMethodNode s' m c hq.1,
          stepExtends_trans hq.2 (extends_createMethodNode s' m c)⟩)
      exact hQ)

theorem stInv_importPhase (st0 : ExtractorState) (r : AnalysisResult) (h : StInv st0) :
    StInv (importPhase st0 r) ∧ stepExtends st0 (importPhase st0 r) := by
  unfold importPhase
  exact foldl_induction (fun s => StInv s ∧ stepExtends st0 s) createImportEdges
    r.imports st0 ⟨h, stepExtends_refl st0⟩
    (fun s i _ hp => by
      obtain ⟨hi, he⟩ := stInv_createImportEdges s i hp.1
      exact ⟨hi, stepExtends_trans hp.2 he⟩)

theorem stInv_callPhase (st0 : ExtractorState) (a : Analyzer) (r : AnalysisResult)
    (h : StInv st0) :
    StInv (callPhase st0 a r) ∧ stepExtends st0 (callPhase st0 a r) ∧
      (callPhase st0 a r).nodeMap = st0.nodeMap ∧
      (callPhase st0 a r).fileToNodes = st0.fileToNodes := by
  unfold callPhase
  exact foldl_induction
    (fun s => StInv s ∧ stepExtends st0 s ∧ s.nodeMap = st0.nodeMap ∧
      s.fileToNodes = st0.fileToNodes)
    (callFileStep a) r.files st0 ⟨h, stepExtends_refl st0, rfl, rfl⟩
    (fun s p _ hp => by
      obtain ⟨hi, he, hm, hf⟩ := stInv_callFileStep a s p hp.1
      exact ⟨hi, stepExtends_trans hp.2.1 he, by rw [hm, hp.2.2.1],
        by rw [hf, hp.2.2.2]⟩)

theorem classesPresent_afterCreate (l : List ClassInfo) :
    ∀ (st : ExtractorState) (cls : ClassInfo), cls ∈ l →
      ∃ n ∈ (l.foldl createClassNode st).nodeMap,
        n.id = "class:" ++ cls.filePath ++ ":" ++ cls.name := by
  induction l with
  | nil => intro st cls h; exact absurd h (List.not_mem_nil cls)
  | cons c cs ih =>
    intro st cls h
    rcases List.mem_cons.mp h with heq | hmem
    · subst heq
      have hpresent : ∃ n ∈ (createClassNode st cls).nodeMap,
          n.id = "class:" ++ cls.filePath ++ ":" ++ cls.name := by
        unfold createClassNode
        dsimp only
        split
        · rename_i hhas
          exact (nmHas_iff _ _).mp hhas
        · exact ⟨_, List.mem_append_right _ (List.mem_singleton.mpr rfl), rfl⟩
      obtain ⟨n, hn, hnid⟩ := hpresent
      have hext := foldl_extends createClassNode cs (createClassNode st cls)
        (fun s a _ => extends_createClassNode s a)
      exact ⟨n, hext.1 n hn, hnid⟩
    · exact ih (createClassNode st c) cls hmem

theorem extends_createMethodNodes (st : ExtractorState) (c : ClassInfo) :
    stepExtends st (createMethodNodes st c) := by
  unfold createMethodNodes
  exact foldl_extends (fun st m => createMethodNode st m c) c.methods st
    (fun s m _ => extends_createMethodNode s m c)

theorem allClassesPresent_buildNodesPhase (st0 : ExtractorState) (r : AnalysisResult) :
    AllClassesPresent r (buildNodesPhase st0 r) := by
  unfold buildNodesPhase
  dsimp only
  intro cls hmem
  obtain ⟨n, hn, hnid⟩ := classesPresent_afterCreate r.classes
    (r.functions.foldl createFunctionNode (r.files.foldl createFileNode st0)) cls hmem
  have hext := foldl_extends createMethodNodes r.classes
    (r.classes.foldl createClassNode
      (r.functions.foldl createFunctionNode (r.files.foldl createFileNode st0)))
    (fun s c _ => extends_createMethodNodes s c)
  exact ⟨n, hext.1 n hn, hnid⟩

theorem allClassesPresent_mono {r : AnalysisResult} {st st' : ExtractorState}
    (hext : stepExtends st st') (h : AllClassesPresent r st) : AllClassesPresent r st' := by
  intro cls hmem
  obtain ⟨n, hn, hnid⟩ := h cls hmem
  exact ⟨n, hext.1 n hn, hnid⟩

theorem stInv_inheritPhase (st0 : ExtractorState) (r : AnalysisResult) (h : StInv st0)
    (hcls : AllClassesPresent r st0) :
    StInv (inheritPhase st0 r) ∧ stepExtends st0 (inheritPhase st0 r) := by
  unfold inheritPhase
  exact foldl_induction (fun s => StInv s ∧ stepExtends st0 s) createInheritanceEdges
    r.classes st0 ⟨h, stepExtends_refl st0⟩
    (fun s cls hmem hp => by
      obtain ⟨n, hn, hnid⟩ := hcls cls hmem
      obtain ⟨hi, he⟩ := stInv_createInheritanceEdges s cls hp.1 ⟨n, hp.2.1 n hn, hnid⟩
      exact ⟨hi, stepExtends_trans hp.2 he⟩)

theorem stInv_clearState (self : ExtractorState) : StInv (clearState self) := by
  refine ⟨List.nodup_nil, List.nodup_nil, ?_, ?_⟩
  · intro pr hpr; exact absurd hpr (List.not_mem_nil pr)
  · intro e he; exact absurd he (List.not_mem_nil e)

theorem stInv_buildStateFrom (self : ExtractorState) (a : Analyzer) (r : AnalysisResult) :
    StInv (buildStateFrom self a r) := by
  unfold buildStateFrom
  obtain ⟨h1, _⟩ := stInv_buildNodesPhase (clearState self) r (stInv_clearState self)
  obtain ⟨h2, he2⟩ := stInv_importPhase (buildNodesPhase (clearState self) r) r h1
  obtain ⟨h3, he3, _, _⟩ := stInv_callPhase
    (importPhase (buildNodesPhase (clearState self) r) r) a r h2
  have hcls : AllClassesPresent r
      (callPhase (importPhase (buildNodesPhase (clearState self) r) r) a r) :=
    allClassesPresent_mono (stepExtends_trans he2 he3)
      (allClassesPresent_buildNodesPhase (clearState self) r)
  obtain ⟨h4, _⟩ := stInv_inheritPhase _ r h3 hcls
  exact (stInv_createParentChildEdges _ h4).1

/-! ## C10: no dangling edges in a built graph -/

/-- C10: every edge of a full build pass's graph (before filtering) has both
endpoints present as nodes — each edge-creation step only fires after both
endpoint nodes are known to exist. -/
theorem c10_built_graph_no_dangling_edges (a : Analyzer) (r : AnalysisResult) :
    ∀ e ∈ (buildGraph a r).edges,
      (∃ n ∈ (buildGraph a r).nodes, n.id = e.source) ∧
      (∃ n ∈ (buildGraph a r).nodes, n.id = e.target) := by
  intro e he
  have h := (stInv_buildStateFrom {} a r).edgeOk e he
  exact ⟨h.2.1, h.2.2.1⟩

/-- Witness for `c10_built_graph_no_dangling_edges`: the call edge of the
two-function build has both of its endpoints among the built nodes. -/
theorem c10_built_graph_no_dangling_edges_witness :
    ({ id := "call:function:f:g:function:f:h", source := "function:f:g",
        target := "function:f:h", type := EdgeType.call, label := some "calls",
        metadata := {} } : GraphEdge) ∈ (buildGraph twoFunAnalyzer twoFunFacts).edges ∧
      ((∃ n ∈ (buildGraph twoFunAnalyzer twoFunFacts).nodes, n.id = "function:f:g") ∧
        (∃ n ∈ (buildGraph twoFunAnalyzer twoFunFacts).nodes, n.id = "function:f:h")) :=
  ⟨by decide, c10_built_graph_no_dangling_edges twoFunAnalyzer twoFunFacts
    { id := "call:function:f:g:function:f:h", source := "function:f:g",
      target := "function:f:h", type := EdgeType.call, label := some "calls",
      metadata := {} } (by decide)⟩

/-! ## C9: idempotence and id uniqueness -/

theorem nodup_filter_map {α β : Type} (l : List α) (f : α → β) (p : α → Bool)
    (h : (l.map f).Nodup) : ((l.filter p).map f).Nodup :=
  List.Nodup.sublist (List.Sublist.map f (List.filter_sublist l)) h

/-- C9: a build pass clears and rebuilds the instance maps, so two passes
over identical facts and hints return the same graph regardless of leftover
instance state, and the returned node and edge ids contain no duplicates. -/
theorem c9_build_idempotent (self₁ self₂ : ExtractorState) (a : Analyzer)
    (r : AnalysisResult) (targetFile : Option String)
    (relatedFiles : Option (List String)) (relatedFunctions : Option (List FunctionHint))
    (relatedClasses : Option (List ClassHint)) (focusNodes : Option (List String)) :
    extractGraphData self₁ a r targetFile relatedFiles relatedFunctions relatedClasses
        focusNodes =
      extractGraphData self₂ a r targetFile relatedFiles relatedFunctions relatedClasses
        focusNodes ∧
    ((extractGraphData self₁ a r targetFile relatedFiles relatedFunctions relatedClasses
        focusNodes).nodes.map GraphNode.id).Nodup ∧
    ((extractGraphData self₁ a r targetFile relatedFiles relatedFunctions relatedClasses
        focusNodes).edges.map GraphEdge.id).Nodup := by
  have hinv := stInv_buildStateFrom self₁ a r
  refine ⟨rfl, ?_, ?_⟩
  · unfold extractGraphData
    dsimp only
    split
    · unfold filterGraphByLLMContext applyRelFilter
      exact nodup_filter_map _ _ _ hinv.nodeNodup
    · exact hinv.nodeNodup
  · unfold extractGraphData
    dsimp only
    split
    · unfold filterGraphByLLMContext applyRelFilter
      exact nodup_filter_map _ _ _ hinv.edgeNodup
    · exact hinv.edgeNodup

/-! ## Parsing the `:`-separated id encodings -/

theorem colon_split : ∀ {x₁ x₂ s₁ s₂ : List Char}, ':' ∉ x₁ → ':' ∉ x₂ →
    x₁ ++ ':' :: s₁ = x₂ ++ ':' :: s₂ → x₁ = x₂ ∧ s₁ = s₂ := by
  intro x₁
  induction x₁ with
  | nil =>
    intro x₂ s₁ s₂ _ h₂ h
    cases x₂ with
    | nil => simpa using h
    | cons c t =>
      simp only [List.nil_append, List.cons_append, List.cons.injEq] at h
      have hmem : ':' ∈ c :: t := by rw [h.1]; exact List.mem_cons_self c t
      exact absurd hmem h₂
  | cons c t ih =>
    intro x₂ s₁ s₂ h₁ h₂ h
    cases x₂ with
    | nil =>
      simp only [List.nil_append, List.cons_append, List.cons.injEq] at h
      have hmem : ':' ∈ c :: t := by rw [← h.1]; exact List.mem_cons_self c t
      exact absurd hmem h₁
    | cons c' t' =>
      simp only [List.cons_append, List.cons.injEq] at h
      obtain ⟨hc, ht⟩ := h
      have h₁' : ':' ∉ t := fun hm => h₁ (List.mem_cons_of_mem c hm)
      have h₂' : ':' ∉ t' := fun hm => h₂ (List.mem_cons_of_mem c' hm)
      obtain ⟨ha, hb⟩ := ih h₁' h₂' ht
      exact ⟨by rw [hc, ha], hb⟩

theorem colonData : (":" : String).data = [':'] := rfl

theorem data_colon_append (a b : String) :
    (a ++ ":" ++ b).data = a.data ++ ':' :: b.data := by
  rw [String.data_append, String.data_append, colonData]
  simp

theorem str_colon_inj {a b a' b' : String} (ha : colonFree a) (ha' : colonFree a')
    (h : a ++ ":" ++ b = a' ++ ":" ++ b') : a = a' ∧ b = b' := by
  have hd := congrArg String.data h
  rw [data_colon_append, data_colon_append] at hd
  obtain ⟨h1, h2⟩ := colon_split ha ha' hd
  exact ⟨String.ext h1, String.ext h2⟩

theorem cons_colon_assoc (x y z : List Char) :
    (x ++ ':' :: y) ++ ':' :: z = x ++ ':' :: (y ++ ':' :: z) := by
  rw [List.append_assoc]
  rfl

theorem idOk_tail_inj {a a' : String} {w w' : List Char} (ha : IdOk a) (ha' : IdOk a')
    (h : a.data ++ ':' :: w = a'.data ++ ':' :: w') : a = a' ∧ w = w' := by
  obtain ⟨k, rest, hk, hae, hfile, hnot⟩ := ha
  obtain ⟨k', rest', hk', hae', hfile', hnot'⟩ := ha'
  have hkcf : colonFree k := by rcases hk with h'|h'|h'|h' <;> subst h' <;> decide
  have hkcf' : colonFree k' := by rcases hk' with h'|h'|h'|h' <;> subst h' <;> decide
  subst hae hae'
  rw [data_colon_append, data_colon_append, cons_colon_assoc, cons_colon_assoc] at h
  obtain ⟨hkk, htail⟩ := colon_split hkcf hkcf' h
  have hkeq : k = k' := String.ext hkk
  subst hkeq
  by_cases hkf : k = "file"
  · obtain ⟨hr, hw⟩ := colon_split (hfile hkf) (hfile' hkf) htail
    exact ⟨by rw [String.ext hr], hw⟩
  · obtain ⟨p, q, hre, hp, hq⟩ := hnot hkf
    obtain ⟨p', q', hre', hp', hq'⟩ := hnot' hkf
    subst hre hre'
    rw [data_colon_append, data_colon_append, cons_colon_assoc, cons_colon_assoc] at htail
    obtain ⟨hpp, htail₂⟩ := colon_split hp hp' htail
    obtain ⟨hqq, hw⟩ := colon_split hq hq' htail₂
    exact ⟨by rw [String.ext hpp, String.ext hqq], hw⟩

theorem idOk_pair_inj {a b a' b' : String} (ha : IdOk a) (ha' : IdOk a')
    (h : a ++ ":" ++ b = a' ++ ":" ++ b') : a = a' ∧ b = b' := by
  have hd := congrArg String.data h
  rw [data_colon_append, data_colon_append] at hd
  obtain ⟨h1, h2⟩ := idOk_tail_inj ha ha' hd
  exact ⟨h1, String.ext h2⟩

theorem edgeId_data (pfxw : List Char) (pfx : String) (hpfx : pfx.data = pfxw ++ [':'])
    (s tgt : String) :
    (pfx ++ s ++ ":" ++ tgt).data = pfxw ++ ':' :: (s.data ++ ':' :: tgt.data) := by
  rw [String.data_append, String.data_append, String.data_append, hpfx, colonData]
  simp

/-- Parsing an edge id against the `parent:` form: only a reference edge can
carry it, and (for well-shaped endpoint ids) the source and target are
recovered exactly. -/
theorem parentEdgeId_inj {e : GraphEdge} {pid nid : String}
    (hid : e.id = edgeTypePrefix e.type ++ e.source ++ ":" ++ e.target)
    (heq : e.id = "parent:" ++ pid ++ ":" ++ nid)
    (hsrc : IdOk e.source) (hpid : IdOk pid) :
    e.type = EdgeType.reference ∧ e.source = pid ∧ e.target = nid := by
  have hd := congrArg String.data (hid.symm.trans heq)
  rw [edgeId_data ("parent".data) "parent:" rfl] at hd
  cases het : e.type <;> rw [het] at hd
  case reference =>
    rw [show edgeTypePrefix EdgeType.reference = "parent:" from rfl,
      edgeId_data ("parent".data) "parent:" rfl] at hd
    obtain ⟨_, htail⟩ := colon_split (by decide) (by decide) hd
    obtain ⟨h1, h2⟩ := idOk_tail_inj hsrc hpid htail
    exact ⟨rfl, h1, String.ext h2⟩
  all_goals {
    first
    | (rw [show edgeTypePrefix EdgeType.«import» = "import:" from rfl,
        edgeId_data ("import".data) "import:" rfl] at hd
       obtain ⟨hw, _⟩ := colon_split (by decide) (by decide) hd
       exact absurd hw (by decide))
    | (rw [show edgeTypePrefix EdgeType.«export» = "export:" from rfl,
        edgeId_data ("export".data) "export:" rfl] at hd
       obtain ⟨hw, _⟩ := colon_split (by decide) (by decide) hd
       exact absurd hw (by decide))
    | (rw [show edgeTypePrefix EdgeType.call = "call:" from rfl,
        edgeId_data ("call".data) "call:" rfl] at hd
       obtain ⟨hw, _⟩ := colon_split (by decide) (by decide) hd
       exact absurd hw (by decide))
    | (rw [show edgeTypePrefix EdgeType.«extends» = "extends:" from rfl,
        edgeId_data ("extends".data) "extends:" rfl] at hd
       obtain ⟨hw, _⟩ := colon_split (by decide) (by decide) hd
       exact absurd hw (by decide))
    | (rw [show edgeTypePrefix EdgeType.implements = "implements:" from rfl,
        edgeId_data ("implements".data) "implements:" rfl] at hd
       obtain ⟨hw, _⟩ := colon_split (by decide) (by decide) hd
       exact absurd hw (by decide)) }

/-! ## Well-shaped ids from `:`-free facts -/

theorem colonFree_append {a b : String} (ha : colonFree a) (hb : colonFree b) :
    colonFree (a ++ b) := by
  unfold colonFree at *
  rw [String.data_append]
  intro h
  rcases List.mem_append.mp h with h | h
  exacts [ha h, hb h]

theorem idOk_file {p : String} (hp : colonFree p) : IdOk ("file:" ++ p) :=
  ⟨"file", p, Or.inl rfl, rfl, fun _ => hp, fun h => absurd rfl h⟩

theorem idOk_kind2 {kind kindc fp nm : String} (hkc : kindc.data = kind.data ++ [':'])
    (hk : kind = "function" ∨ kind = "class" ∨ kind = "method")
    (hfp : colonFree fp) (hnm : colonFree nm) : IdOk (kindc ++ fp ++ ":" ++ nm) := by
  refine ⟨kind, fp ++ ":" ++ nm, Or.inr hk, ?_, ?_, ?_⟩
  · apply String.ext
    rw [edgeId_data kind.data kindc hkc, data_colon_append, data_colon_append]
  · intro hf
    rcases hk with h | h | h <;> rw [h] at hf <;> exact absurd hf (by decide)
  · intro _
    exact ⟨fp, nm, rfl, hfp, hnm⟩

theorem idOk_method {fp c m : String} (hfp : colonFree fp) (hc : colonFree c)
    (hm : colonFree m) : IdOk ("method:" ++ fp ++ ":" ++ c ++ "." ++ m) := by
  have hq : colonFree (c ++ "." ++ m) :=
    colonFree_append (colonFree_append hc (by decide)) hm
  refine ⟨"method", fp ++ ":" ++ (c ++ "." ++ m), Or.inr (Or.inr (Or.inr rfl)), ?_,
    ?_, ?_⟩
  · apply String.ext
    simp [String.data_append, data_colon_append, List.append_assoc]
  · intro hf
    exact absurd hf (by decide)
  · intro _
    exact ⟨fp, c ++ "." ++ m, rfl, hfp, hq⟩

theorem idOk_ne_empty {s : String} (h : IdOk s) : s ≠ "" := by
  obtain ⟨k, rest, hk, hse, _, _⟩ := h
  subst hse
  intro hc
  have hd := congrArg String.data hc
  rw [data_colon_append] at hd
  rcases hk with h' | h' | h' | h' <;> subst h' <;> simp at hd

/-- `IdsOk` only reads the node map. -/
theorem idsOk_of_nodeMap_eq {st st' : ExtractorState} (h : st'.nodeMap = st.nodeMap)
    (hok : IdsOk st) : IdsOk st' := by
  intro n hn
  exact hok n (h ▸ hn)

theorem idsOk_createFileNode (st : ExtractorState) (p : String) (h : IdsOk st)
    (hp : colonFree p) : IdsOk (createFileNode st p) := by
  unfold createFileNode
  dsimp only
  split
  · exact h
  · intro n hn
    rcases List.mem_append.mp hn with hold | hnew
    · exact h n hold
    · simp only [List.mem_singleton] at hnew
      subst hnew
      refine ⟨idOk_file hp, hp, ?_⟩
      intro pid hpid
      simp at hpid

theorem idsOk_createFunctionNode (st : ExtractorState) (f : FunctionInfo) (h : IdsOk st)
    (hp : colonFree f.filePath) (hn : colonFree f.name) :
    IdsOk (createFunctionNode st f) := by
  unfold createFunctionNode
  dsimp only
  split
  · exact h
  · intro n hnm
    rcases List.mem_append.mp hnm with hold | hnew
    · exact h n hold
    · simp only [List.mem_singleton] at hnew
      subst hnew
      refine ⟨@idOk_kind2 "function" "function:" f.filePath f.name rfl (Or.inl rfl)
        hp hn, hp, ?_⟩
      intro pid hpid
      simp only [Option.some_inj] at hpid
      subst hpid
      exact idOk_file hp

theorem idsOk_createClassNode (st : ExtractorState) (c : ClassInfo) (h : IdsOk st)
    (hp : colonFree c.filePath) (hn : colonFree c.name) :
    IdsOk (createClassNode st c) := by
  unfold createClassNode
  dsimp only
  split
  · exact h
  · intro n hnm
    rcases List.mem_append.mp hnm with hold | hnew
    · exact h n hold
    · simp only [List.mem_singleton] at hnew
      subst hnew
      refine ⟨@idOk_kind2 "class" "class:" c.filePath c.name rfl (Or.inr (Or.inl rfl))
        hp hn, hp, ?_⟩
      intro pid hpid
      simp only [Option.some_inj] at hpid
      subst hpid
      exact idOk_file hp

theorem idsOk_createMethodNode (st : ExtractorState) (m : MethodInfo) (c : ClassInfo)
    (h : IdsOk st) (hp : colonFree m.filePath) (hmn : colonFree m.name)
    (hcn : colonFree c.name) : IdsOk (createMethodNode st m c) := by
  unfold createMethodNode
  dsimp only
  split
  · exact h
  · intro n hnm
    rcases List.mem_append.mp hnm with hold | hnew
    · exact h n hold
    · simp only [List.mem_singleton] at hnew
      subst hnew
      refine ⟨idOk_method hp hcn hmn, hp, ?_⟩
      intro pid hpid
      simp only [Option.some_inj] at hpid
      subst hpid
      exact @idOk_kind2 "class" "class:" m.filePath c.name rfl (Or.inr (Or.inl rfl))
        hp hcn

theorem importNodeEdge_nodeMap (i : ImportInfo) (importName sourceNodeId : String)
    (st : ExtractorState) (tid : String) :
    (importNodeEdge i importName sourceNodeId st tid).nodeMap = st.nodeMap := by
  unfold importNodeEdge
  cases nmGet st.nodeMap tid with
  | none => rfl
  | some targetNode =>
    dsimp only
    split
    · exact addEdge_nodeMap st _
    · rfl

theorem importFileEdge_nodeMap (i : ImportInfo) (importName sourceFileNodeId : String)
    (targetFile : String) (st : ExtractorState) :
    (importFileEdge i importName sourceFileNodeId targetFile st).nodeMap = st.nodeMap := by
  unfold importFileEdge
  split
  · exact addEdge_nodeMap st _
  · rfl

theorem findFileByExport_some {nm : List GraphNode} {name tf : String}
    (h : findFileByExport nm name = some tf) : ∃ n ∈ nm, n.filePath = tf := by
  unfold findFileByExport at h
  cases hf : nm.find? (fun node =>
      (node.type == NodeType.file && node.label == name) ||
      (node.label == name &&
        (node.type == NodeType.function || node.type == NodeType.«class»))) with
  | none => rw [hf] at h; simp at h
  | some n =>
    rw [hf] at h
    simp only [Option.map] at h
    exact ⟨n, List.mem_of_find?_eq_some hf, by simpa using h⟩

theorem idsOk_importNameStep (i : ImportInfo) (sfn : List String)
    (st : ExtractorState) (importName : String) (h : IdsOk st) :
    IdsOk (importNameStep i sfn st importName) := by
  unfold importNameStep
  cases hf : findFileByExport st.nodeMap importName with
  | none => exact h
  | some targetFile =>
    dsimp only
    have hcf : colonFree targetFile := by
      obtain ⟨n, hn, hnfp⟩ := findFileByExport_some hf
      exact hnfp ▸ (h n hn).2.1
    have hA : IdsOk (ensureFileEntry st targetFile) := by
      unfold ensureFileEntry
      split
      · exact h
      · exact idsOk_createFileNode st targetFile h hcf
    have hB : IdsOk (importFileEdge i importName (sfn.headD "") targetFile
        (ensureFileEntry st targetFile)) :=
      idsOk_of_nodeMap_eq (importFileEdge_nodeMap i importName _ targetFile _) hA
    refine foldl_induction IdsOk _ sfn _ hB ?_
    intro s nodeId _ hs
    refine foldl_induction IdsOk (importNodeEdge i importName nodeId) _ s hs ?_
    intro s' tid _ hs'
    exact idsOk_of_nodeMap_eq (importNodeEdge_nodeMap i importName nodeId s' tid) hs'

theorem idsOk_createImportEdges (st0 : ExtractorState) (i : ImportInfo) (h : IdsOk st0)
    (hfrom : colonFree i.«from») : IdsOk (createImportEdges st0 i) := by
  unfold createImportEdges
  dsimp only
  have h₁ : IdsOk (importSourceState st0 i) := by
    unfold importSourceState
    split
    · split
      · exact h
      · exact idsOk_createFileNode st0 _ h hfrom
    · exact h
  split
  · exact h₁
  · exact foldl_induction IdsOk (importNameStep i _) i.imports _ h₁
      (fun s importName _ hs => idsOk_importNameStep i _ s importName hs)

theorem createInheritanceEdges_nodeMap (st : ExtractorState) (c : ClassInfo) :
    (createInheritanceEdges st c).nodeMap = st.nodeMap := by
  unfold createInheritanceEdges
  dsimp only
  have himp : ∀ (s : ExtractorState), (c.«implements».foldl
      (implementsEdgeFor ("class:" ++ c.filePath ++ ":" ++ c.name)) s).nodeMap =
      s.nodeMap := by
    intro s
    refine foldl_induction (fun s' => s'.nodeMap = s.nodeMap) _ c.«implements» s rfl ?_
    intro s' iname _ hs'
    unfold implementsEdgeFor
    cases findNodeByName s'.nodeMap iname NodeType.interface with
    | none => exact hs'
    | some implId => rw [addEdge_nodeMap]; exact hs'
  cases c.«extends» with
  | none => exact himp st
  | some ext =>
    dsimp only
    split
    · exact himp st
    · cases findNodeByName st.nodeMap ext NodeType.«class» with
      | none => exact himp st
      | some extendsNodeId => rw [himp, addEdge_nodeMap]

theorem parentChildStep_nodeMap (st : ExtractorState) (node : GraphNode) :
    (parentChildStep st node).nodeMap = st.nodeMap := by
  unfold parentChildStep
  cases node.parentId with
  | none => rfl
  | some pid =>
    dsimp only
    split
    · rfl
    · split
      · exact addEdge_nodeMap st _
      · rfl

theorem createParentChildEdges_nodeMap (st0 : ExtractorState) :
    (createParentChildEdges st0).nodeMap = st0.nodeMap := by
  unfold createParentChildEdges
  refine foldl_induction (fun s => s.nodeMap = st0.nodeMap) parentChildStep
    st0.nodeMap st0 rfl ?_
  intro s node _ hs
  rw [parentChildStep_nodeMap]; exact hs

theorem idsOk_buildNodesPhase (st0 : ExtractorState) (r : AnalysisResult)
    (h0 : IdsOk st0) (hcf : ColonFreeFacts r) : IdsOk (buildNodesPhase st0 r) := by
  obtain ⟨hfiles, hfuns, hclss, _⟩ := hcf
  unfold buildNodesPhase
  dsimp only
  have hA := foldl_induction IdsOk createFileNode r.files st0 h0
    (fun s p hp hs => idsOk_createFileNode s p hs (hfiles p hp))
  have hB := foldl_induction IdsOk createFunctionNode r.functions _ hA
    (fun s f hf hs => idsOk_createFunctionNode s f hs (hfuns f hf).2 (hfuns f hf).1)
  have hC := foldl_induction IdsOk createClassNode r.classes _ hB
    (fun s c hc hs => idsOk_createClassNode s c hs (hclss c hc).2.1 (hclss c hc).1)
  refine foldl_induction IdsOk createMethodNodes r.classes _ hC ?_
  intro s c hc hs
  unfold createMethodNodes
  refine foldl_induction IdsOk (fun st m => createMethodNode st m c) c.methods s hs ?_
  intro s' m hm hs'
  exact idsOk_createMethodNode s' m c hs' ((hclss c hc).2.2 m hm).2
    ((hclss c hc).2.2 m hm).1 (hclss c hc).1

theorem idsOk_importPhase (st0 : ExtractorState) (r : AnalysisResult)
    (h0 : IdsOk st0) (hcf : ColonFreeFacts r) : IdsOk (importPhase st0 r) := by
  unfold importPhase
  exact foldl_induction IdsOk createImportEdges r.imports st0 h0
    (fun s i hi hs => idsOk_createImportEdges s i hs (hcf.2.2.2 i hi))

theorem idsOk_empty (self : ExtractorState) : IdsOk (clearState self) := by
  intro n hn; exact absurd hn (List.not_mem_nil n)

theorem idsOk_stAfterImports (r : AnalysisResult) (hcf : ColonFreeFacts r) :
    IdsOk (stAfterImports r) :=
  idsOk_importPhase _ r (idsOk_buildNodesPhase _ r (idsOk_empty {}) hcf) hcf

theorem stInv_stAfterImports (r : AnalysisResult) : StInv (stAfterImports r) :=
  (stInv_importPhase _ r (stInv_buildNodesPhase _ r (stInv_clearState {})).1).1

theorem idsOk_buildStateFrom (self : ExtractorState) (a : Analyzer) (r : AnalysisResult)
    (hcf : ColonFreeFacts r) : IdsOk (buildStateFrom self a r) := by
  unfold buildStateFrom
  have h1 : IdsOk (buildNodesPhase (clearState self) r) :=
    idsOk_buildNodesPhase _ r (idsOk_empty self) hcf
  have h2 : IdsOk (importPhase (buildNodesPhase (clearState self) r) r) :=
    idsOk_importPhase _ r h1 hcf
  have h3 : IdsOk (callPhase (importPhase (buildNodesPhase (clearState self) r) r) a r) := by
    have hSt : StInv (importPhase (buildNodesPhase (clearState self) r) r) :=
      (stInv_importPhase _ r (stInv_buildNodesPhase _ r (stInv_clearState self)).1).1
    obtain ⟨hS, _, hm, _⟩ := stInv_callPhase (importPhase (buildNodesPhase
      (clearState self) r) r) a r hSt
    exact idsOk_of_nodeMap_eq hm h2
  have h4 : IdsOk (inheritPhase (callPhase (importPhase (buildNodesPhase
      (clearState self) r) r) a r) r) := by
    unfold inheritPhase
    refine foldl_induction IdsOk createInheritanceEdges r.classes _ h3 ?_
    intro s c _ hs
    exact idsOk_of_nodeMap_eq (createInheritanceEdges_nodeMap s c) hs
  exact idsOk_of_nodeMap_eq (createParentChildEdges_nodeMap _) h4

/-! ## C7: containment edges -/

theorem extends_parentChildStep (st : ExtractorState) (node : GraphNode) :
    stepExtends st (parentChildStep st node) := by
  unfold parentChildStep
  cases node.parentId with
  | none => exact stepExtends_refl st
  | some pid =>
    dsimp only
    split
    · exact stepExtends_refl st
    · split
      · exact extends_addEdge st _
      · exact stepExtends_refl st

theorem nodup_const_length_le_one {α β : Type} (l : List α) (f : α → β) (K : β)
    (hnd : (l.map f).Nodup) (hK : ∀ x ∈ l, f x = K) : l.length ≤ 1 := by
  match l with
  | [] => simp
  | [x] => simp
  | x :: y :: t =>
    exfalso
    rw [List.map_cons, List.map_cons, List.nodup_cons] at hnd
    refine hnd.1 ?_
    rw [hK x (by simp), hK y (by simp)]
    exact List.mem_cons_self _ _

theorem parentFold_creates (full : List GraphNode) :
    ∀ (l : List GraphNode) (st : ExtractorState), StInv st → st.nodeMap = full →
      IdsOk st → (∀ y ∈ l, y ∈ full) →
      ∀ n ∈ l, ∀ pid, n.parentId = some pid → IdOk pid → nmHas full pid = true →
        ∃ e ∈ (l.foldl parentChildStep st).edgeMap,
          e.source = pid ∧ e.target = n.id ∧ e.type = EdgeType.reference ∧
            e.label = some "contains" := by
  intro l
  induction l with
  | nil =>
    intro st _ _ _ _ n hn
    exact absurd hn (List.not_mem_nil n)
  | cons x xs ih =>
    intro st hInv hmap hIds hsub n hn pid hpid hpidOk hhas
    rcases List.mem_cons.mp hn with heq | hmem
    · subst heq
      have hstep : ∃ e ∈ (parentChildStep st n).edgeMap,
          e.source = pid ∧ e.target = n.id ∧ e.type = EdgeType.reference ∧
            e.label = some "contains" := by
        unfold parentChildStep
        rw [hpid]
        dsimp only
        rw [if_neg (by simpa using idOk_ne_empty hpidOk)]
        rw [if_pos (by rw [hmap]; exact hhas)]
        unfold addEdgeIfAbsent
        split
        · rename_i hhasE
          obtain ⟨e', he', heid⟩ := (emHas_iff _ _).mp hhasE
          have hei := hInv.edgeOk e' he'
          have hsrcOk : IdOk e'.source := by
            obtain ⟨m, hm, hmid⟩ := hei.2.1
            exact hmid ▸ (hIds m hm).1
          obtain ⟨hty, hsrc, htgt⟩ := parentEdgeId_inj hei.1 heid hsrcOk hpidOk
          have hlabel := (hei.2.2.2.2 hty).1
          exact ⟨e', he', hsrc, htgt, hty, hlabel⟩
        · refine ⟨_, List.mem_append_right _ (List.mem_singleton.mpr rfl),
            rfl, rfl, rfl, rfl⟩
      obtain ⟨e, he, hprops⟩ := hstep
      have hext := foldl_extends parentChildStep xs (parentChildStep st n)
        (fun s b _ => extends_parentChildStep s b)
      exact ⟨e, hext.2 e he, hprops⟩
    · obtain ⟨hi, _, hm, _⟩ := stInv_parentChildStep st x hInv
        (by rw [hmap]; exact hsub x (List.mem_cons_self x xs))
      exact ih (parentChildStep st x) hi (by rw [hm, hmap])
        (idsOk_of_nodeMap_eq (parentChildStep_nodeMap st x) hIds)
        (fun y hy => hsub y (List.mem_cons_of_mem x hy))
        n hmem pid hpid hpidOk hhas

/-- C7: on a build over `:`-free facts, a node whose `parentId` resolves to an
existing node gets exactly one `contains` edge (`reference`-typed, labeled
`contains`) from parent to child, and a node whose `parentId` does not
resolve gets none — the build pass is a total function, so the dangling
parent is skipped without any failure. -/
theorem c7_contains_edges (a : Analyzer) (r : AnalysisResult)
    (hcf : ColonFreeFacts r) :
    ∀ n ∈ (buildGraph a r).nodes, ∀ pid, n.parentId = some pid →
      ((∃ p ∈ (buildGraph a r).nodes, p.id = pid) →
        ((buildGraph a r).edges.filter (fun e =>
          e.source == pid && e.target == n.id && e.type == EdgeType.reference &&
            e.label == some "contains")).length = 1) ∧
      ((¬ ∃ p ∈ (buildGraph a r).nodes, p.id = pid) →
        ((buildGraph a r).edges.filter (fun e =>
          e.source == pid && e.target == n.id && e.type == EdgeType.reference &&
            e.label == some "contains")).length = 0) := by
  intro n hn pid hpid
  have hInvF : StInv (buildStateFrom {} a r) := stInv_buildStateFrom {} a r
  have hIdsF : IdsOk (buildStateFrom {} a r) := idsOk_buildStateFrom {} a r hcf
  have hnodes : (buildGraph a r).nodes = (buildStateFrom {} a r).nodeMap := rfl
  have hedges : (buildGraph a r).edges = (buildStateFrom {} a r).edgeMap := rfl
  have hpidOk : IdOk pid := (hIdsF n (hnodes ▸ hn)).2.2 pid hpid
  constructor
  · intro hp
    -- the pre-parent-phase state
    have hInv7 : StInv (inheritPhase (callPhase (importPhase (buildNodesPhase
        (clearState ({} : ExtractorState)) r) r) a r) r) := by
      have h1 := (stInv_buildNodesPhase (clearState ({} : ExtractorState)) r
        (stInv_clearState {})).1
      obtain ⟨h2, he2⟩ := stInv_importPhase _ r h1
      obtain ⟨h3, he3, _, _⟩ := stInv_callPhase _ a r h2
      exact (stInv_inheritPhase _ r h3 (allClassesPresent_mono
        (stepExtends_trans he2 he3) (allClassesPresent_buildNodesPhase _ r))).1
    have hmap7 : (buildStateFrom {} a r).nodeMap = (inheritPhase (callPhase
        (importPhase (buildNodesPhase (clearState ({} : ExtractorState)) r) r) a r)
        r).nodeMap := createParentChildEdges_nodeMap _
    have hIds7 : IdsOk (inheritPhase (callPhase (importPhase (buildNodesPhase
        (clearState ({} : ExtractorState)) r) r) a r) r) :=
      idsOk_of_nodeMap_eq hmap7.symm hIdsF
    have hhas : nmHas (inheritPhase (callPhase (importPhase (buildNodesPhase
        (clearState ({} : ExtractorState)) r) r) a r) r).nodeMap pid = true := by
      refine (nmHas_iff _ _).mpr ?_
      obtain ⟨q, hq, hqid⟩ := hp
      exact ⟨q, hmap7 ▸ (hnodes ▸ hq), hqid⟩
    obtain ⟨e, he, hsrc, htgt, hty, hlab⟩ := parentFold_creates _ _ _ hInv7 rfl hIds7
      (fun y hy => hy) n (hmap7 ▸ (hnodes ▸ hn)) pid hpid hpidOk hhas
    have hmemf : e ∈ (buildGraph a r).edges.filter (fun e =>
        e.source == pid && e.target == n.id && e.type == EdgeType.reference &&
          e.label == some "contains") := by
      rw [hedges]
      refine List.mem_filter.mpr ⟨he, ?_⟩
      simp [hsrc, htgt, hty, hlab]
    have hge : 1 ≤ ((buildGraph a r).edges.filter (fun e =>
        e.source == pid && e.target == n.id && e.type == EdgeType.reference &&
          e.label == some "contains")).length := List.length_pos_of_mem hmemf
    have hle : ((buildGraph a r).edges.filter (fun e =>
        e.source == pid && e.target == n.id && e.type == EdgeType.reference &&
          e.label == some "contains")).length ≤ 1 := by
      refine nodup_const_length_le_one _ GraphEdge.id
        ("parent:" ++ pid ++ ":" ++ n.id) (nodup_filter_map _ _ _ hInvF.edgeNodup) ?_
      intro x hx
      obtain ⟨hxe, hxp⟩ := List.mem_filter.mp hx
      simp only [Bool.and_eq_true, beq_iff_eq] at hxp
      obtain ⟨⟨⟨hxs, hxt⟩, hxty⟩, _⟩ := hxp
      have hxi := (hInvF.edgeOk x (hedges ▸ hxe)).1
      rw [hxi, hxty, hxs, hxt]
      rfl
    omega
  · intro hnp
    rw [List.length_eq_zero]
    rw [List.filter_eq_nil_iff]
    intro e he hpred
    simp only [Bool.and_eq_true, beq_iff_eq] at hpred
    obtain ⟨⟨⟨hes, _⟩, _⟩, _⟩ := hpred
    obtain ⟨q, hq, hqid⟩ := (hInvF.edgeOk e (hedges ▸ he)).2.1
    exact hnp ⟨q, hnodes ▸ hq, by rw [hqid, hes]⟩

/-- Witness for `c7_contains_edges` on facts with one resolvable and one
dangling parent. -/
theorem c7_contains_edges_witness :
    ColonFreeFacts danglingParentFacts ∧
    (∀ n ∈ (buildGraph emptyAnalyzer danglingParentFacts).nodes, ∀ pid,
      n.parentId = some pid →
      ((∃ p ∈ (buildGraph emptyAnalyzer danglingParentFacts).nodes, p.id = pid) →
        ((buildGraph emptyAnalyzer danglingParentFacts).edges.filter (fun e =>
          e.source == pid && e.target == n.id && e.type == EdgeType.reference &&
            e.label == some "contains")).length = 1) ∧
      ((¬ ∃ p ∈ (buildGraph emptyAnalyzer danglingParentFacts).nodes, p.id = pid) →
        ((buildGraph emptyAnalyzer danglingParentFacts).edges.filter (fun e =>
          e.source == pid && e.target == n.id && e.type == EdgeType.reference &&
            e.label == some "contains")).length = 0)) :=
  ⟨by decide, c7_contains_edges emptyAnalyzer danglingParentFacts (by decide)⟩

/-! ## C6: call edges -/

theorem foldl_extends_inv {α : Type} (f : ExtractorState → α → ExtractorState)
    (P : ExtractorState → Prop)
    (hstep : ∀ s a, P s → P (f s a) ∧ stepExtends s (f s a)) :
    ∀ (l : List α) (st : ExtractorState), P st →
      P (l.foldl f st) ∧ stepExtends st (l.foldl f st) := by
  intro l
  induction l with
  | nil => intro st h; exact ⟨h, stepExtends_refl st⟩
  | cons x xs ih =>
    intro st h
    obtain ⟨h1, h2⟩ := hstep st x h
    obtain ⟨h3, h4⟩ := ih (f st x) h1
    exact ⟨h3, stepExtends_trans h2 h4⟩

theorem foldl_creates {α : Type} (f : ExtractorState → α → ExtractorState)
    (P : ExtractorState → Prop) (Q : GraphEdge → Prop) (x : α)
    (hstep : ∀ s a, P s → P (f s a) ∧ stepExtends s (f s a))
    (hcr : ∀ s, P s → ∃ e ∈ (f s x).edgeMap, Q e) :
    ∀ (l : List α) (st : ExtractorState), x ∈ l → P st →
      ∃ e ∈ (l.foldl f st).edgeMap, Q e := by
  intro l
  induction l with
  | nil => intro st hx; exact absurd hx (List.not_mem_nil x)
  | cons y ys ih =>
    intro st hx hP
    rcases List.mem_cons.mp hx with heq | hmem
    · subst heq
      obtain ⟨e, he, hQ⟩ := hcr st hP
      obtain ⟨_, hext⟩ := foldl_extends_inv f P hstep ys (f st x) (hstep st x hP).1
      exact ⟨e, hext.2 e he, hQ⟩
    · exact ih (f st y) hmem (hstep st y hP).1

/-- Parsing an edge id against the `call:` form. -/
theorem callEdgeId_inj {e : GraphEdge} {cid nid : String}
    (hid : e.id = edgeTypePrefix e.type ++ e.source ++ ":" ++ e.target)
    (heq : e.id = "call:" ++ cid ++ ":" ++ nid)
    (hsrc : IdOk e.source) (hcid : IdOk cid) :
    e.type = EdgeType.call ∧ e.source = cid ∧ e.target = nid := by
  have hd := congrArg String.data (hid.symm.trans heq)
  rw [edgeId_data ("call".data) "call:" rfl] at hd
  cases het : e.type <;> rw [het] at hd
  case call =>
    rw [show edgeTypePrefix EdgeType.call = "call:" from rfl,
      edgeId_data ("call".data) "call:" rfl] at hd
    obtain ⟨_, htail⟩ := colon_split (by decide) (by decide) hd
    obtain ⟨h1, h2⟩ := idOk_tail_inj hsrc hcid htail
    exact ⟨rfl, h1, String.ext h2⟩
  all_goals {
    first
    | (rw [show edgeTypePrefix EdgeType.«import» = "import:" from rfl,
        edgeId_data ("import".data) "import:" rfl] at hd
       obtain ⟨hw, _⟩ := colon_split (by decide) (by decide) hd
       exact absurd hw (by decide))
    | (rw [show edgeTypePrefix EdgeType.«export» = "export:" from rfl,
        edgeId_data ("export".data) "export:" rfl] at hd
       obtain ⟨hw, _⟩ := colon_split (by decide) (by decide) hd
       exact absurd hw (by decide))
    | (rw [show edgeTypePrefix EdgeType.«extends» = "extends:" from rfl,
        edgeId_data ("extends".data) "extends:" rfl] at hd
       obtain ⟨hw, _⟩ := colon_split (by decide) (by decide) hd
       exact absurd hw (by decide))
    | (rw [show edgeTypePrefix EdgeType.implements = "implements:" from rfl,
        edgeId_data ("implements".data) "implements:" rfl] at hd
       obtain ⟨hw, _⟩ := colon_split (by decide) (by decide) hd
       exact absurd hw (by decide))
    | (rw [show edgeTypePrefix EdgeType.reference = "parent:" from rfl,
        edgeId_data ("parent".data) "parent:" rfl] at hd
       obtain ⟨hw, _⟩ := colon_split (by decide) (by decide) hd
       exact absurd hw (by decide)) }

theorem findCallerNode_congr {st st' : ExtractorState} (hm : st'.nodeMap = st.nodeMap)
    (hf : st'.fileToNodes = st.fileToNodes) (n : GraphNode) :
    findCallerNode st' n = findCallerNode st n := by
  unfold findCallerNode
  rw [hm, hf]

theorem addCallEdgeFor_creates (stAI : ExtractorState) (c nodeId callerId : String)
    (n : GraphNode) (hnode : nmGet stAI.nodeMap nodeId = some n)
    (hlabel : n.label = c ∨ n.metadata.name = some c)
    (hcaller : findCallerNode stAI n = some callerId)
    (hIdsAI : IdsOk stAI) (st : ExtractorState)
    (hP : StInv st ∧ st.nodeMap = stAI.nodeMap ∧ st.fileToNodes = stAI.fileToNodes) :
    ∃ e ∈ (addCallEdgeFor c st nodeId).edgeMap,
      e.source = callerId ∧ e.target = nodeId ∧ e.type = EdgeType.call ∧
        e.label = some "calls" := by
  obtain ⟨hInv, hm, hf⟩ := hP
  have hcaller' : findCallerNode st n = some callerId := by
    rw [findCallerNode_congr hm hf]; exact hcaller
  unfold addCallEdgeFor
  rw [hm, hnode]
  dsimp only
  rw [if_pos (by rcases hlabel with h | h <;> simp [h])]
  rw [hcaller']
  dsimp only
  unfold addEdgeIfAbsent
  split
  · rename_i hhasE
    obtain ⟨e', he', heid⟩ := (emHas_iff _ _).mp hhasE
    have hei := hInv.edgeOk e' he'
    have hsrcOk : IdOk e'.source := by
      obtain ⟨m, hmm, hmid⟩ := hei.2.1
      exact hmid ▸ (hIdsAI m (hm ▸ hmm)).1
    have hcidOk : IdOk callerId := by
      obtain ⟨m, hmm, hmid, _⟩ := findCallerNode_some hInv hcaller'
      exact hmid ▸ (hIdsAI m (hm ▸ hmm)).1
    obtain ⟨hty, hs, ht⟩ := callEdgeId_inj hei.1 heid hsrcOk hcidOk
    have hlab := (hei.2.2.2.1 hty).1
    exact ⟨e', he', hs, ht, hty, hlab⟩
  · exact ⟨_, List.mem_append_right _ (List.mem_singleton.mpr rfl), rfl, rfl, rfl, rfl⟩

/-- C6: when a call fact names `c` in file `p` and some node of `p` carries
that label, a call edge is created from the file's first function node
(`findCallerNode`, no scope resolution) to the matched node; and no call edge
of a built graph ever connects nodes of two different files. -/
theorem c6_call_edges (a : Analyzer) (r : AnalysisResult) (hcf : ColonFreeFacts r)
    (p c nodeId callerId : String) (names : List String) (n : GraphNode)
    (hp : p ∈ r.files) (hsrc : a.getSourceFile p = some names) (hc : c ∈ names)
    (hmem : nodeId ∈ ftnGet (stAfterImports r).fileToNodes p)
    (hnode : nmGet (stAfterImports r).nodeMap nodeId = some n)
    (hlabel : n.label = c ∨ n.metadata.name = some c)
    (hcaller : findCallerNode (stAfterImports r) n = some callerId) :
    (∃ e ∈ (buildGraph a r).edges, e.source = callerId ∧ e.target = nodeId ∧
      e.type = EdgeType.call ∧ e.label = some "calls") ∧
    (∀ e ∈ (buildGraph a r).edges, e.type = EdgeType.call →
      ∃ n₁ ∈ (buildGraph a r).nodes, ∃ n₂ ∈ (buildGraph a r).nodes,
        n₁.id = e.source ∧ n₂.id = e.target ∧ n₁.filePath = n₂.filePath) := by
  have hInvF : StInv (buildStateFrom {} a r) := stInv_buildStateFrom {} a r
  constructor
  · -- existence through the call phase, then persistence
    have hIdsAI := idsOk_stAfterImports r hcf
    have hInvAI := stInv_stAfterImports r
    set P : ExtractorState → Prop := fun s => StInv s ∧
      s.nodeMap = (stAfterImports r).nodeMap ∧
      s.fileToNodes = (stAfterImports r).fileToNodes with hPdef
    have hstep₃ : ∀ (nm : String) (s : ExtractorState) (b : String), P s →
        P (addCallEdgeFor nm s b) ∧ stepExtends s (addCallEdgeFor nm s b) := by
      intro nm s b hs
      obtain ⟨hi, he⟩ := stInv_addCallEdgeFor nm s b hs.1
      obtain ⟨hm, hf⟩ := addCallEdgeFor_maps nm s b
      exact ⟨⟨hi, by rw [hm, hs.2.1], by rw [hf, hs.2.2]⟩, he⟩
    have hstep₂ : ∀ (q : String) (s : ExtractorState) (nm : String), P s →
        P (callEdgesForName q s nm) ∧ stepExtends s (callEdgesForName q s nm) := by
      intro q s nm hs
      unfold callEdgesForName
      exact foldl_extends_inv (addCallEdgeFor nm) P (hstep₃ nm) _ s hs
    have hstep₁ : ∀ s q, P s → P (callFileStep a s q) ∧
        stepExtends s (callFileStep a s q) := by
      intro s q hs
      unfold callFileStep
      cases a.getSourceFile q with
      | none => exact ⟨hs, stepExtends_refl s⟩
      | some ns =>
        unfold extractCallEdges
        exact foldl_extends_inv (callEdgesForName q) P (hstep₂ q) ns s hs
    have hcr₁ : ∀ s, P s → ∃ e ∈ (callFileStep a s p).edgeMap,
        e.source = callerId ∧ e.target = nodeId ∧ e.type = EdgeType.call ∧
          e.label = some "calls" := by
      intro s hs
      unfold callFileStep
      rw [hsrc]
      unfold extractCallEdges
      refine foldl_creates (callEdgesForName p) P _ c (hstep₂ p) ?_ names s hc hs
      intro s' hs'
      unfold callEdgesForName
      rw [hs'.2.2]
      exact foldl_creates (addCallEdgeFor c) P _ nodeId (hstep₃ c)
        (fun s'' hs'' => addCallEdgeFor_creates (stAfterImports r) c nodeId callerId n
          hnode hlabel hcaller hIdsAI s'' hs'')
        (ftnGet (stAfterImports r).fileToNodes p) s' hmem hs'
    have hCall : ∃ e ∈ (callPhase (stAfterImports r) a r).edgeMap,
        e.source = callerId ∧ e.target = nodeId ∧ e.type = EdgeType.call ∧
          e.label = some "calls" := by
      unfold callPhase
      exact foldl_creates (callFileStep a) P _ p hstep₁ hcr₁ r.files
        (stAfterImports r) hp ⟨hInvAI, rfl, rfl⟩
    obtain ⟨e, he, hprops⟩ := hCall
    -- persistence through the inheritance and parent phases
    have hInvC : StInv (callPhase (stAfterImports r) a r) :=
      (stInv_callPhase (stAfterImports r) a r hInvAI).1
    have hclsC : AllClassesPresent r (callPhase (stAfterImports r) a r) := by
      refine allClassesPresent_mono ?_ (allClassesPresent_buildNodesPhase
        (clearState ({} : ExtractorState)) r)
      exact stepExtends_trans (stInv_importPhase _ r (stInv_buildNodesPhase _ r
        (stInv_clearState {})).1).2 (stInv_callPhase (stAfterImports r) a r hInvAI).2.1
    obtain ⟨hInvI, hextI⟩ := stInv_inheritPhase (callPhase (stAfterImports r) a r) r
      hInvC hclsC
    have hextP := (stInv_createParentChildEdges
      (inheritPhase (callPhase (stAfterImports r) a r) r) hInvI).2.1
    exact ⟨e, hextP.2 e (hextI.2 e he), hprops⟩
  · intro e he hty
    obtain ⟨_, n₁, h₁, n₂, h₂, hrest⟩ := (hInvF.edgeOk e he).2.2.2.1 hty
    exact ⟨n₁, h₁, n₂, h₂, hrest⟩

/-- Witness for `c6_call_edges`: in `twoFunFacts` the call to `h` inside `f`
yields the edge `function:f:g → function:f:h`. -/
theorem c6_call_edges_witness :
    ColonFreeFacts twoFunFacts ∧ "f" ∈ twoFunFacts.files ∧
    twoFunAnalyzer.getSourceFile "f" = some ["h"] ∧
    "function:f:h" ∈ ftnGet (stAfterImports twoFunFacts).fileToNodes "f" ∧
    nmGet (stAfterImports twoFunFacts).nodeMap "function:f:h" = some twoFunHNode ∧
    findCallerNode (stAfterImports twoFunFacts) twoFunHNode = some "function:f:g" ∧
    ((∃ e ∈ (buildGraph twoFunAnalyzer twoFunFacts).edges,
      e.source = "function:f:g" ∧ e.target = "function:f:h" ∧
        e.type = EdgeType.call ∧ e.label = some "calls") ∧
    (∀ e ∈ (buildGraph twoFunAnalyzer twoFunFacts).edges, e.type = EdgeType.call →
      ∃ n₁ ∈ (buildGraph twoFunAnalyzer twoFunFacts).nodes,
        ∃ n₂ ∈ (buildGraph twoFunAnalyzer twoFunFacts).nodes,
          n₁.id = e.source ∧ n₂.id = e.target ∧ n₁.filePath = n₂.filePath)) :=
  ⟨by decide, by decide, by decide, by decide, by decide, by decide,
    c6_call_edges twoFunAnalyzer twoFunFacts (by decide) "f" "h" "function:f:h"
      "function:f:g" ["h"] twoFunHNode (by decide) (by decide) (by decide) (by decide)
      (by decide) (Or.inl (by decide)) (by decide)⟩

/-! ## C3: the file-closure property of the Context Filter -/

theorem foldl_reaches {α σ : Type} (f : σ → α → σ) (Q : σ → Prop)
    (hmono : ∀ s a, Q s → Q (f s a)) (y : α) (hcr : ∀ s, Q (f s y)) :
    ∀ (l : List α) (s : σ), y ∈ l → Q (l.foldl f s) := by
  intro l
  induction l with
  | nil => intro s hy; exact absurd hy (List.not_mem_nil y)
  | cons x xs ih =>
    intro s hy
    rcases List.mem_cons.mp hy with heq | hmem
    · subst heq
      exact foldl_induction Q f xs (f s y) (hcr s) (fun s a _ hq => hmono s a hq)
    · exact ih (f s x) hmem

theorem foldl_mem_decompose {α : Type} (f : List String → α → List String)
    (D : α → String → Prop)
    (hstep : ∀ a x s, s ∈ f a x → s ∈ a ∨ D x s) :
    ∀ (l : List α) (a : List String) (s : String),
      s ∈ l.foldl f a → s ∈ a ∨ ∃ x ∈ l, D x s := by
  intro l
  induction l with
  | nil => intro a s h; exact Or.inl h
  | cons x xs ih =>
    intro a s h
    rcases ih (f a x) s h with h1 | ⟨x₂, hx₂, hd⟩
    · rcases hstep a x s h1 with h2 | hd
      · exact Or.inl h2
      · exact Or.inr ⟨x, List.mem_cons_self x xs, hd⟩
    · exact Or.inr ⟨x₂, List.mem_cons_of_mem x hx₂, hd⟩

theorem mem_setAdd_of_mem {s : List String} {x : String} (y : String) (h : x ∈ s) :
    x ∈ setAdd s y := by
  unfold setAdd
  split
  · exact h
  · exact List.mem_append_left _ h

theorem mem_setAdd_self (s : List String) (y : String) : y ∈ setAdd s y := by
  unfold setAdd
  split
  · rename_i h
    exact (contains_iff_mem s y).mp h
  · exact List.mem_append_right _ (List.mem_singleton.mpr rfl)

theorem mem_setAdd {s : List String} {x y : String} (h : x ∈ setAdd s y) :
    x ∈ s ∨ x = y := by
  unfold setAdd at h
  split at h
  · exact Or.inl h
  · rcases List.mem_append.mp h with h1 | h1
    · exact Or.inl h1
    · exact Or.inr (List.mem_singleton.mp h1)

theorem fileClosurePass_sup (g : GraphData) (rel : List String) (x : String)
    (h : x ∈ rel) : x ∈ fileClosurePass g rel := by
  unfold fileClosurePass
  refine foldl_induction (fun a => x ∈ a) _ rel rel h ?_
  intro a nid _ hx
  dsimp only
  split
  · split
    · refine foldl_induction (fun a2 => x ∈ a2) _ g.nodes a hx ?_
      intro a2 c _ hx2
      dsimp only
      split
      · exact mem_setAdd_of_mem _ hx2
      · exact hx2
    · exact hx
  · exact hx

theorem fileClosurePass_complete (g : GraphData) (rel : List String) {y : String}
    {nd : GraphNode} (hy : y ∈ rel)
    (hfind : g.nodes.find? (fun n => n.id == y) = some nd)
    (hty : nd.type = NodeType.file) :
    ∀ c ∈ g.nodes, c.filePath = nd.filePath → c.id ∈ fileClosurePass g rel := by
  intro c hc hfp
  by_cases hcy : c.id = y
  · exact fileClosurePass_sup g rel c.id (by rw [hcy]; exact hy)
  · unfold fileClosurePass
    refine foldl_reaches _ (fun a => c.id ∈ a) ?_ y ?_ rel rel hy
    · intro s a hq
      dsimp only
      split
      · split
        · refine foldl_induction (fun a2 => c.id ∈ a2) _ g.nodes s hq ?_
          intro a2 c2 _ h2
          dsimp only
          split
          · exact mem_setAdd_of_mem _ h2
          · exact h2
        · exact hq
      · exact hq
    · intro s
      dsimp only
      rw [hfind]
      dsimp only
      rw [if_pos (show (nd.type == NodeType.file) = true by simp [hty])]
      refine foldl_reaches _ (fun a => c.id ∈ a) ?_ c ?_ g.nodes s hc
      · intro s2 a2 hq
        dsimp only
        split
        · exact mem_setAdd_of_mem _ hq
        · exact hq
      · intro s2
        dsimp only
        rw [if_pos (show (c.filePath == nd.filePath && c.id != y) = true by
          simp [hfp, hcy])]
        exact mem_setAdd_self s2 c.id

theorem fileClosurePass_mem {g : GraphData} {rel : List String} {x : String}
    (h : x ∈ fileClosurePass g rel) :
    x ∈ rel ∨ ∃ y ∈ rel, ∃ nd, g.nodes.find? (fun n => n.id == y) = some nd ∧
      nd.type = NodeType.file ∧ ∃ c ∈ g.nodes, c.filePath = nd.filePath ∧ c.id = x := by
  unfold fileClosurePass at h
  have hinner : ∀ (nid : String) (node : GraphNode) (a : List String) (s : String),
      s ∈ g.nodes.foldl (fun acc childNode =>
        if childNode.filePath == node.filePath && childNode.id != nid then
          setAdd acc childNode.id
        else acc) a →
      s ∈ a ∨ ∃ c ∈ g.nodes,
        ((c.filePath == node.filePath && c.id != nid) = true) ∧ c.id = s := by
    intro nid node a s hs
    refine foldl_mem_decompose _
      (fun c t => ((c.filePath == node.filePath && c.id != nid) = true) ∧ c.id = t)
      ?_ g.nodes a s hs
    intro a2 c t hmem
    split at hmem
    · rcases mem_setAdd hmem with h1 | h1
      · exact Or.inl h1
      · rename_i hcond
        exact Or.inr ⟨hcond, h1.symm⟩
    · exact Or.inl hmem
  refine foldl_mem_decompose _
    (fun y s => ∃ nd, g.nodes.find? (fun n => n.id == y) = some nd ∧
      nd.type = NodeType.file ∧ ∃ c ∈ g.nodes, c.filePath = nd.filePath ∧ c.id = s)
    ?_ rel rel x h
  intro a nid s hs
  cases hfind : g.nodes.find? (fun n => n.id == nid) with
  | none =>
    rw [hfind] at hs
    exact Or.inl hs
  | some node =>
    rw [hfind] at hs
    dsimp only at hs
    by_cases ht : (node.type == NodeType.file) = true
    · rw [if_pos ht] at hs
      rcases hinner nid node a s hs with h1 | ⟨c, hc, hcond, hcid⟩
      · exact Or.inl h1
      · refine Or.inr ⟨node, hfind, by simpa using ht, c, hc, ?_, hcid⟩
        have := (Bool.and_eq_true _ _).mp hcond
        simpa using this.1
    · rw [if_neg ht] at hs
      exact Or.inl hs

theorem map_id_nodup_inj {l : List GraphNode} (hnd : (l.map GraphNode.id).Nodup)
    {a b : GraphNode} (ha : a ∈ l) (hb : b ∈ l) (hid : a.id = b.id) : a = b := by
  induction l with
  | nil => exact absurd ha (List.not_mem_nil a)
  | cons x xs ih =>
    rw [List.map_cons, List.nodup_cons] at hnd
    rcases List.mem_cons.mp ha with rfl | ha2
    · rcases List.mem_cons.mp hb with rfl | hb2
      · rfl
      · exact absurd (by rw [hid]; exact List.mem_map_of_mem GraphNode.id hb2) hnd.1
    · rcases List.mem_cons.mp hb with rfl | hb2
      · exact absurd (by rw [← hid]; exact List.mem_map_of_mem GraphNode.id ha2) hnd.1
      · exact ih hnd.2 ha2 hb2

theorem find?_id_self {l : List GraphNode} (hnd : (l.map GraphNode.id).Nodup)
    {nf : GraphNode} (h : nf ∈ l) :
    l.find? (fun n => n.id == nf.id) = some nf := by
  cases hf : l.find? (fun n => n.id == nf.id) with
  | none =>
    have := List.find?_eq_none.mp hf nf h
    simp at this
  | some nd =>
    have h1 : nd ∈ l := List.mem_of_find?_eq_some hf
    have h2 := List.find?_some hf
    have h3 : nd.id = nf.id := by simpa using h2
    rw [map_id_nodup_inj hnd h1 h h3]

theorem closure_filter_closed (g : GraphData) (rel₀ : List String)
    (hnd : (g.nodes.map GraphNode.id).Nodup) :
    ∀ nf ∈ (applyRelFilter g (fileClosurePass g rel₀)).nodes,
      nf.type = NodeType.file →
      ∀ m ∈ g.nodes, m.filePath = nf.filePath →
        m ∈ (applyRelFilter g (fileClosurePass g rel₀)).nodes := by
  intro nf hnf hty m hm hfp
  unfold applyRelFilter at hnf ⊢
  dsimp only at hnf ⊢
  rw [List.mem_filter] at hnf
  obtain ⟨hnfg, hnfc⟩ := hnf
  have hnfid : nf.id ∈ fileClosurePass g rel₀ := (contains_iff_mem _ _).mp hnfc
  have hgoal : m.id ∈ fileClosurePass g rel₀ := by
    rcases fileClosurePass_mem hnfid with hin |
        ⟨y, hy, nd, hfind, hndty, c, hcg, hcfp, hcid⟩
    · exact fileClosurePass_complete g rel₀ hin (find?_id_self hnd hnfg) hty m hm hfp
    · have hcnf : c = nf := map_id_nodup_inj hnd hcg hnfg hcid
      have hmf : m.filePath = nd.filePath := by rw [hfp, ← hcnf, hcfp]
      exact fileClosurePass_complete g rel₀ hy hfind hndty m hm hmf
  rw [List.mem_filter]
  exact ⟨hm, (contains_iff_mem _ _).mpr hgoal⟩

/-- C3 (amended): the closure pass of the Context Filter guarantees
file-closure for files whose **file node** survives in the result: in a graph
with duplicate-free node ids, whenever a file-type node is in the filtered
result, every node of the input graph sharing its file path is also in the
result.  (For a non-file node of the result the guarantee does not hold; see
the counterexample.) -/
theorem c3_file_closure (g : GraphData) (r : AnalysisResult)
    (targetFile : Option String) (relatedFiles : Option (List String))
    (relatedFunctions : Option (List FunctionHint))
    (relatedClasses : Option (List ClassHint)) (focusNodes : Option (List String))
    (hnd : (g.nodes.map GraphNode.id).Nodup) :
    ∀ nf ∈ (filterGraphByLLMContext g r targetFile relatedFiles relatedFunctions
        relatedClasses focusNodes).nodes,
      nf.type = NodeType.file →
      ∀ m ∈ g.nodes, m.filePath = nf.filePath →
        m ∈ (filterGraphByLLMContext g r targetFile relatedFiles relatedFunctions
          relatedClasses focusNodes).nodes := by
  intro nf hnf hty m hm hfp
  unfold filterGraphByLLMContext finalRelated at hnf ⊢
  dsimp only at hnf ⊢
  by_cases hlen : (collectSeeds g r targetFile relatedFiles relatedFunctions
      relatedClasses focusNodes).length > 0
  · rw [if_pos hlen] at hnf ⊢
    exact closure_filter_closed g _ hnd nf hnf hty m hm hfp
  · rw [if_neg hlen] at hnf
    exfalso
    rw [List.length_eq_zero.mp (Nat.eq_zero_of_not_pos hlen)] at hnf
    unfold applyRelFilter at hnf
    dsimp only at hnf
    rw [List.mem_filter] at hnf
    exact absurd ((contains_iff_mem _ _).mp hnf.2) (List.not_mem_nil _)

/-- Witness for `c3_file_closure`: filtering the two-function build with the
focus node `file:f` satisfies the file-node closure property. -/
theorem c3_file_closure_witness :
    (((buildGraph twoFunAnalyzer twoFunFacts).nodes.map GraphNode.id).Nodup) ∧
    (∀ nf ∈ (filterGraphByLLMContext (buildGraph twoFunAnalyzer twoFunFacts)
        twoFunFacts none none none none (some ["file:f"])).nodes,
      nf.type = NodeType.file →
      ∀ m ∈ (buildGraph twoFunAnalyzer twoFunFacts).nodes,
        m.filePath = nf.filePath →
        m ∈ (filterGraphByLLMContext (buildGraph twoFunAnalyzer twoFunFacts)
          twoFunFacts none none none none (some ["file:f"])).nodes) :=
  ⟨by decide, c3_file_closure (buildGraph twoFunAnalyzer twoFunFacts) twoFunFacts
    none none none none (some ["file:f"]) (by decide)⟩

/-- Counterexample to C3 as stated: with functions `g` and `h` recorded in
file `F` but `F` missing from the file list, focusing on `function:F:g`
returns a result containing a node of file path `F` (the function node `g`)
while the input graph's other node of file path `F` (the function node `h`)
is not in the result. -/
theorem c3_counterexample :
    ∃ n ∈ (extractGraphData {} emptyAnalyzer danglingFileFacts none none none none
        (some ["function:F:g"])).nodes,
      ∃ m ∈ (buildGraph emptyAnalyzer danglingFileFacts).nodes,
        m.filePath = n.filePath ∧
        m ∉ (extractGraphData {} emptyAnalyzer danglingFileFacts none none none none
          (some ["function:F:g"])).nodes := by
  decide

end Codemap
